import Mathlib

/-!
# Verification of the versioned document store in `utils/db.py`

We shallowly embed the data model and operations of the repository's
persistence layer:

* JSON-like documents (`Value`, `Doc`) with Python-dict semantics
  (insertion order preserved, update keeps the key's position, new keys
  are appended at the end);
* the recursive migration merge `update_values` (db.py lines 303-309);
* the three backend adapters' `get_data` / `update_data` / `delete_data`
  over a single (collection, db_name) container, modelled as a list of
  documents in insertion order (each backend operation touches exactly
  one container `self._connect[collection][db_name]`):
  - `LocalDatabase` (tinymongo, "Embedded-File"),
  - `OldLocalDatabase` (mongita, "Embedded-Relational"),
  - `MongoDatabase` (motor, "Remote-Replicated");
* `MongoDatabase.update_from_json`, the bulk import gate.

Numbers are modelled as `Rat`: every version number in the registries
(1.0, 1.1, 1.2, 1.7) is a decimal fraction represented exactly by the
Python float, so order and equality agree with the source.  A Python
run-time crash (KeyError, TypeError, an exception raised by the driver) is
modelled by `Option`/`Except` returning `none`/`error`.
-/

namespace Db

/-- JSON-like values as stored by the database layer: Python strings,
numbers (int/float collapsed to `Rat`), booleans, `None`, lists and dicts.
A dict is an insertion-ordered association list with unique keys. -/
inductive Value : Type where
  | str  : String → Value
  | num  : Rat → Value
  | bool : Bool → Value
  | null : Value
  | arr  : List Value → Value
  | obj  : List (String × Value) → Value

/-- A document: a Python dict from field name to value, in insertion order. -/
abbrev Doc := List (String × Value)

/-- Python `d[k]` / `d.get(k)`: value of the first (unique) occurrence of `k`. -/
def dget? (d : Doc) (k : String) : Option Value :=
  match d with
  | [] => none
  | (k1, v) :: rest => if k1 = k then some v else dget? rest k

/-- Python `d[k] = v`: replace the value at `k` in place if present,
otherwise append the new key at the end (insertion order). -/
def dset (d : Doc) (k : String) (v : Value) : Doc :=
  match d with
  | [] => [(k, v)]
  | (k1, v1) :: rest => if k1 = k then (k1, v) :: rest else (k1, v1) :: dset rest k v

/-- Python `k in d`. -/
def dhas (d : Doc) (k : String) : Bool := (dget? d k).isSome

/-- The keys of a document, in order. -/
def dkeys (d : Doc) : List String := d.map Prod.fst

/-- Model of `update_values(d, u)` (db.py 303-309), the migration merge:

```
def update_values(d, u):
    for k, v in u.items():
        if isinstance(v, collections.abc.Mapping):
            d[k] = update_values(d.get(k, {}), v)
        elif not isinstance(v, list):
            d[k] = v
    return d
```

It iterates over the items of `u` (the *existing stored document* at the
call sites), threading the mutable `d` (a copy of the *template*).  A
mapping value recurses on `d.get(k, {})`; a list value is skipped; any
other value is written into `d`.  `d` is an arbitrary Python object
(`d.get` / `d[k] = v` raise `TypeError`/`AttributeError` when `d` is not
a dict, modelled by `none`); `none` also propagates a crash of a
recursive call, which in Python would abort before the assignment. -/
def update_values (d : Value) (u : List (String × Value)) : Option Value :=
  match u with
  | [] => some d
  | (k, v) :: rest =>
    match v, d with
    | .obj m, .obj dm =>
      match update_values ((dget? dm k).getD (.obj [])) m with
      | some r => update_values (.obj (dset dm k r)) rest
      | none => none
    | .obj _, _ => none
    | .arr _, d1 => update_values d1 rest
    | .str s, .obj dm => update_values (.obj (dset dm k (.str s))) rest
    | .num n, .obj dm => update_values (.obj (dset dm k (.num n))) rest
    | .bool b, .obj dm => update_values (.obj (dset dm k (.bool b))) rest
    | .null, .obj dm => update_values (.obj (dset dm k .null)) rest
    | _, _ => none
  termination_by sizeOf u
  decreasing_by
    all_goals simp_wf
    all_goals omega

/-- Python `x < y` for the value types that can reach the version
comparison `data["ver"] < default_model[db_name]["ver"]`: numbers and
booleans compare numerically (`True == 1`, `False == 0`), strings compare
with strings; any other combination raises `TypeError` (`none`).  (The
template's `ver` is a number in both registries, so the container/None
cases Python would order among themselves are unreachable here.) -/
def pyLt? : Value → Value → Option Bool
  | .num a, .num b => some (decide (a < b))
  | .num a, .bool b => some (decide (a < (if b then (1 : Rat) else 0)))
  | .bool a, .num b => some (decide ((if a then (1 : Rat) else 0) < b))
  | .bool a, .bool b => some (decide ((if a then (1 : Rat) else 0) < (if b then (1 : Rat) else 0)))
  | .str a, .str b => some (decide (a < b))
  | _, _ => none

/-- Does this stored document match the filter `{"_id": id_}`?  `_id` is
always written as a string, and the filter value `str(id_)` is a string,
so the match is a string comparison. -/
def hasId (doc : Doc) (id_ : String) : Bool :=
  match dget? doc "_id" with
  | some (.str s) => s = id_
  | _ => false

/-- Model of `find_one({"_id": id_})`: first document of the container matching the
id, in insertion order; `None` (here `none`) on a miss. -/
def findOne (c : List Doc) (id_ : String) : Option Doc :=
  match c with
  | [] => none
  | doc :: rest => if hasId doc id_ then some doc else findOne rest id_

/-- Apply a `$set` update document: each field of `data`, in order, is
written into `doc`. -/
def setFields (doc : Doc) (data : Doc) : Doc :=
  data.foldl (fun d kv => dset d kv.1 kv.2) doc

/-- Model of `update_one({"_id": id_}, {"$set": data})` without upsert: `$set` the
first matching document in place; `none` when no document matched (the
driver's result is falsy in that case). -/
def updateOneSet (c : List Doc) (id_ : String) (data : Doc) : Option (List Doc) :=
  match c with
  | [] => none
  | doc :: rest =>
    if hasId doc id_ then some (setFields doc data :: rest)
    else (updateOneSet rest id_ data).map (fun c1 => doc :: c1)

/-- Model of `replace_one({"_id": id_}, data, upsert=True)` (mongita): replace the
first matching document wholly by `data` (keeping the stored `_id` when
`data` carries none); insert `data` with `_id` taken from the filter when
nothing matched. -/
def replaceOneUpsert (c : List Doc) (id_ : String) (data : Doc) : List Doc :=
  match c with
  | [] => [if dhas data "_id" then data else dset data "_id" (.str id_)]
  | doc :: rest =>
    if hasId doc id_ then
      (if dhas data "_id" then data else dset data "_id" (.str id_)) :: rest
    else doc :: replaceOneUpsert rest id_ data

/-- Model of `delete_one({"_id": id_})`: remove the first matching document; a
no-op when nothing matches.  All three backends' `delete_data`
(db.py 167-168, 210-211, 299-300) are this one call. -/
def deleteOne (c : List Doc) (id_ : String) : List Doc :=
  match c with
  | [] => []
  | doc :: rest => if hasId doc id_ then rest else doc :: deleteOne rest id_

/-- Model of `LocalDatabase.update_data` (db.py 153-162): attempt
`update_one({'_id': id_}, {'$set': data})`; when its result is falsy
(nothing matched), force `data["_id"] = id_` and `insert_one(data)`
(append).  Returns the (possibly `_id`-stamped) `data` and the new
container. -/
def local_update_data (id_ : String) (data : Doc) (c : List Doc) : Doc × List Doc :=
  match updateOneSet c id_ data with
  | some c1 => (data, c1)
  | none =>
    let data1 := dset data "_id" (.str id_)
    (data1, c ++ [data1])

/-- Model of `OldLocalDatabase.update_data` (db.py 200-205): a single
`replace_one(..., upsert=True)` call; returns `data`. -/
def old_update_data (id_ : String) (data : Doc) (c : List Doc) : Doc × List Doc :=
  (data, replaceOneUpsert c id_ data)

/-- Model of `MongoDatabase.update_data` (db.py 291-294): a single
`update_one({'_id': str(id_)}, {'$set': data}, upsert=True)` call.  On a
miss the server creates the document from the filter's equality field
(`_id`) and then applies `$set`.  (The method returns the driver's
`UpdateResult`, not `data`; we return the container.) -/
def mongo_update_data (id_ : String) (data : Doc) (c : List Doc) : List Doc :=
  match updateOneSet c id_ data with
  | some c1 => c1
  | none => c ++ [setFields [("_id", .str id_)] data]

/-- Model of `LocalDatabase.get_data` (db.py 130-151) over the container addressed
by `(collection, db_name)`, with `tmpl = default_model[db_name]` (the
code takes `dict(...)` copies; copying is the identity here).
Miss: seed from the template, stamp `_id`, `insert_one`, return.
Hit with `data["ver"] < tmpl["ver"]`: merge via `update_values`, reset
`ver` to the template's, write back via `update_data`, return the merged
document.  Fresh hit: return verbatim.  `none` models a Python crash
(missing/uncomparable `ver`, or `update_values` raising). -/
def local_get_data (tmpl : Doc) (id_ : String) (c : List Doc) : Option (Doc × List Doc) :=
  match findOne c id_ with
  | none =>
    let data := dset tmpl "_id" (.str id_)
    some (data, c ++ [data])
  | some data =>
    match dget? data "ver", dget? tmpl "ver" with
    | some dv, some tv =>
      match pyLt? dv tv with
      | some true =>
        match update_values (.obj tmpl) data with
        | some (.obj merged) =>
          let merged1 := dset merged "ver" tv
          some (merged1, (local_update_data id_ merged1 c).2)
        | _ => none
      | some false => some (data, c)
      | none => none
    | _, _ => none

/-- Model of `OldLocalDatabase.get_data` (db.py 177-198): textually the same logic
as `LocalDatabase.get_data`, but the write-back goes through mongita's
`replace_one` upsert (`old_update_data`). -/
def old_get_data (tmpl : Doc) (id_ : String) (c : List Doc) : Option (Doc × List Doc) :=
  match findOne c id_ with
  | none =>
    let data := dset tmpl "_id" (.str id_)
    some (data, c ++ [data])
  | some data =>
    match dget? data "ver", dget? tmpl "ver" with
    | some dv, some tv =>
      match pyLt? dv tv with
      | some true =>
        match update_values (.obj tmpl) data with
        | some (.obj merged) =>
          let merged1 := dset merged "ver" tv
          some (merged1, (old_update_data id_ merged1 c).2)
        | _ => none
      | some false => some (data, c)
      | none => none
    | _, _ => none

/-- Model of `MongoDatabase.get_data` (db.py 270-289): on a miss it returns
`dict(default_model[db_name])` — the bare template, with *no* `_id` stamp
and *no* insert.  The stale-hit migration is as in the embedded variants,
written back through the remote `$set` upsert. -/
def mongo_get_data (tmpl : Doc) (id_ : String) (c : List Doc) : Option (Doc × List Doc) :=
  match findOne c id_ with
  | none => some (tmpl, c)
  | some data =>
    match dget? data "ver", dget? tmpl "ver" with
    | some dv, some tv =>
      match pyLt? dv tv with
      | some true =>
        match update_values (.obj tmpl) data with
        | some (.obj merged) =>
          let merged1 := dset merged "ver" tv
          some (merged1, mongo_update_data id_ merged1 c)
        | _ => none
      | some false => some (data, c)
      | none => none
    | _, _ => none

/-- The registry entry `db_models[DBModel.guilds]` (db.py 31-43). -/
def db_models_guilds : Doc :=
  [("ver", .num 1.7),
   ("player_controller", .obj
     [("channel", .null),
      ("message_id", .null),
      ("skin", .null),
      ("static_skin", .null),
      ("fav_links", .obj [])]),
   ("check_other_bots_in_vc", .bool false),
   ("enable_prefixed_commands", .bool true),
   ("djroles", .arr [])]

/-- The registry entry `db_models[DBModel.users]` (db.py 44-47). -/
def db_models_users : Doc :=
  [("ver", .num 1.0), ("fav_links", .obj [])]

/-- The registry entry `global_db_models[DBModel.guilds]` (db.py 56-64). -/
def global_db_models_guilds : Doc :=
  [("ver", .num 1.2),
   ("prefix", .str ""),
   ("global_skin", .bool false),
   ("player_skin", .null),
   ("player_skin_static", .null),
   ("custom_skins", .obj []),
   ("custom_skins_static", .obj [])]

/-- The registry entry `global_db_models[DBModel.users]` (db.py 51-55). -/
def global_db_models_users : Doc :=
  [("ver", .num 1.1), ("fav_links", .obj []), ("token", .str "")]

/-- Repeated `MongoDatabase.get_data` calls with no intervening update:
the list of returned documents and the final container state after `n`
consecutive calls for the same id. -/
def mongoGetN (tmpl : Doc) (id_ : String) : Nat → List Doc → Option (List Doc × List Doc)
  | 0, c => some ([], c)
  | n + 1, c =>
    match mongo_get_data tmpl id_ c with
    | some (r, c1) =>
      match mongoGetN tmpl id_ n c1 with
      | some (rs, c2) => some (r :: rs, c2)
      | none => none
    | none => none

/-- Is this value a Python scalar for the purposes of `update_values`,
i.e. neither a `Mapping` nor a `list`? -/
def isScalar (v : Value) : Bool :=
  match v with
  | .arr _ => false
  | .obj _ => false
  | _ => true

/-- Is this value a sequence (Python `list`)? -/
def isSeq (v : Value) : Bool :=
  match v with
  | .arr _ => true
  | _ => false

/-! ## The bulk import gate (`MongoDatabase.update_from_json`, db.py 238-262)

The remote backend's state is a map from `(collection, db_name)` to a
container.  A dump file `f` is already parsed JSON (a `json.load` failure
would, like any other exception outside the `shutil.move` guard,
propagate out of `update_from_json`); its stem `f[:-5]` names the
collection, and its content maps a `db_name` to a map from id to
document.  Driver-level failures of the per-entry `update_data` call are
modelled by the oracle `updFails` (collection, db_name, id), and
`shutil.move` failures by `moveFails` (collection); `traceback.print_exc`
merely logs, so a failed move only means the file is not added to the
moved list.  The move sits *inside* the `for db_name` loop, so it is
attempted once per non-empty `db_name` of the file. -/

/-- The remote backend's storage: container per `(collection, db_name)`. -/
abbrev MState := List ((String × String) × List Doc)

/-- Look up the container for a `(collection, db_name)` key (empty if
never written). -/
def mstateGet (s : MState) (key : String × String) : List Doc :=
  match s with
  | [] => []
  | (k1, c) :: rest => if k1 = key then c else mstateGet rest key

/-- Store the container for a `(collection, db_name)` key. -/
def mstateSet (s : MState) (key : String × String) (c : List Doc) : MState :=
  match s with
  | [] => [(key, c)]
  | (k1, c1) :: rest =>
    if k1 = key then (k1, c) :: rest else (k1, c1) :: mstateSet rest key c

/-- One parsed dump file: its stem (`f[:-5]`, the collection name) and
its parsed content, `db_name ↦ [(id, document), ...]`. -/
structure ImportFile where
  stem : String
  data : List (String × List (String × Doc))

/-- The inner `for id_, data in db_data.items()` loop of
`update_from_json` (db.py 256-257): upsert every entry via
`MongoDatabase.update_data`.  An exception from `update_data` is *not*
caught there, so it aborts the whole run (`Except.error`, tagged with
collection, db_name and id). -/
def import_ids (updFails : String → String → String → Bool) (col db : String) :
    List (String × Doc) → MState → Except (String × String × String) MState
  | [], s => .ok s
  | (id_, doc) :: rest, s =>
    if updFails col db id_ then .error (col, db, id_)
    else import_ids updFails col db rest
      (mstateSet s (col, db) (mongo_update_data id_ doc (mstateGet s (col, db))))

/-- The `for db_name, db_data in data.items()` loop of `update_from_json`
(db.py 251-262): an empty `db_data` is skipped (including the move
attempt); after the entries of a non-empty `db_data` are upserted, the
file move is attempted under `try/except` — a failure is only logged and
processing continues. -/
def import_dbs (updFails : String → String → String → Bool) (moveFails : String → Bool)
    (col : String) :
    List (String × List (String × Doc)) → MState → List String →
      Except (String × String × String) (MState × List String)
  | [], s, moved => .ok (s, moved)
  | (db, entries) :: rest, s, moved =>
    if entries.isEmpty then import_dbs updFails moveFails col rest s moved
    else
      match import_ids updFails col db entries s with
      | .error e => .error e
      | .ok s1 =>
        import_dbs updFails moveFails col rest s1
          (if moveFails col then moved else moved ++ [col])

/-- Model of `MongoDatabase.update_from_json` (db.py 238-262) over the
already-discovered and parsed `.json` dump files: returns the remote
state and the list of files moved to `./local_dbs/backups`, or the first
uncaught per-entry error. -/
def update_from_json (updFails : String → String → String → Bool)
    (moveFails : String → Bool) :
    List ImportFile → MState → List String →
      Except (String × String × String) (MState × List String)
  | [], s, moved => .ok (s, moved)
  | file :: rest, s, moved =>
    match import_dbs updFails moveFails file.stem file.data s moved with
    | .error e => .error e
    | .ok (s1, moved1) => update_from_json updFails moveFails rest s1 moved1

/-! ## The storage invariant of claim C9 -/

/-- The `_id` of a stored document, when it is a string. -/
def idOf (doc : Doc) : Option String :=
  match dget? doc "_id" with
  | some (.str s) => some s
  | _ => none

/-- A well-formed stored document for a template of version `tv`: unique
field names (guaranteed by Python dicts), a numeric `ver` at most `tv`,
and a string `_id`. -/
def docOk (tv : Rat) (doc : Doc) : Prop :=
  (dkeys doc).Nodup ∧ (∃ q, dget? doc "ver" = some (.num q) ∧ q ≤ tv) ∧
    ∃ s, dget? doc "_id" = some (.str s)

/-- The storage invariant of claim C9 on one container: every stored
document is `docOk` and the `_id`s are pairwise distinct. -/
def stateOk (tv : Rat) (c : List Doc) : Prop :=
  (∀ doc ∈ c, docOk tv doc) ∧ (c.map idOf).Nodup

/-- One backend operation on a container, for template `tmpl` of version
`tv`, relating the container before to the container after.  The `get`
steps are those that succeed (a crash leaves no new state).  The `update`
steps carry the conditions under which the written document is itself
well formed: unique keys, a numeric `ver ≤ tv`, and no `_id` differing
from the addressed id.  `query_data` of every backend is a bare `find`
and writes nothing. -/
inductive Step (tv : Rat) (tmpl : Doc) : List Doc → List Doc → Prop where
  | localGet (id_ : String) (c : List Doc) (r : Doc) (c1 : List Doc) :
      local_get_data tmpl id_ c = some (r, c1) → Step tv tmpl c c1
  | oldGet (id_ : String) (c : List Doc) (r : Doc) (c1 : List Doc) :
      old_get_data tmpl id_ c = some (r, c1) → Step tv tmpl c c1
  | mongoGet (id_ : String) (c : List Doc) (r : Doc) (c1 : List Doc) :
      mongo_get_data tmpl id_ c = some (r, c1) → Step tv tmpl c c1
  | localUpd (id_ : String) (data : Doc) (c : List Doc) :
      (dkeys data).Nodup →
      (∃ q, dget? data "ver" = some (.num q) ∧ q ≤ tv) →
      (dget? data "_id" = none ∨ dget? data "_id" = some (.str id_)) →
      Step tv tmpl c (local_update_data id_ data c).2
  | oldUpd (id_ : String) (data : Doc) (c : List Doc) :
      (dkeys data).Nodup →
      (∃ q, dget? data "ver" = some (.num q) ∧ q ≤ tv) →
      (dget? data "_id" = none ∨ dget? data "_id" = some (.str id_)) →
      Step tv tmpl c (old_update_data id_ data c).2
  | mongoUpd (id_ : String) (data : Doc) (c : List Doc) :
      (dkeys data).Nodup →
      (∃ q, dget? data "ver" = some (.num q) ∧ q ≤ tv) →
      (dget? data "_id" = none ∨ dget? data "_id" = some (.str id_)) →
      Step tv tmpl c (mongo_update_data id_ data c)
  | del (id_ : String) (c : List Doc) :
      Step tv tmpl c (deleteOne c id_)
  | queryRead (c : List Doc) :
      Step tv tmpl c c

/-! ## One-step equations for `update_values` -/

theorem update_values_nil (d : Value) : update_values d [] = some d := by
  rw [update_values.eq_def]

theorem update_values_arr (d : Value) (k : String) (xs : List Value) (rest : Doc) :
    update_values d ((k, .arr xs) :: rest) = update_values d rest := by
  rw [update_values.eq_def]

theorem update_values_str (dm : Doc) (k s : String) (rest : Doc) :
    update_values (.obj dm) ((k, .str s) :: rest)
      = update_values (.obj (dset dm k (.str s))) rest := by
  rw [update_values.eq_def]

theorem update_values_num (dm : Doc) (k : String) (n : Rat) (rest : Doc) :
    update_values (.obj dm) ((k, .num n) :: rest)
      = update_values (.obj (dset dm k (.num n))) rest := by
  rw [update_values.eq_def]

theorem update_values_bool (dm : Doc) (k : String) (b : Bool) (rest : Doc) :
    update_values (.obj dm) ((k, .bool b) :: rest)
      = update_values (.obj (dset dm k (.bool b))) rest := by
  rw [update_values.eq_def]

theorem update_values_null (dm : Doc) (k : String) (rest : Doc) :
    update_values (.obj dm) ((k, .null) :: rest)
      = update_values (.obj (dset dm k .null)) rest := by
  rw [update_values.eq_def]

theorem update_values_objv (dm : Doc) (k : String) (m : Doc) (rest : Doc) :
    update_values (.obj dm) ((k, .obj m) :: rest)
      = match update_values ((dget? dm k).getD (.obj [])) m with
        | some r => update_values (.obj (dset dm k r)) rest
        | none => none := by
  rw [update_values.eq_def]

/-- A scalar head behaves uniformly: the value is written into the dict. -/
theorem update_values_scalar (dm : Doc) (k : String) (v : Value) (rest : Doc)
    (h : isScalar v = true) :
    update_values (.obj dm) ((k, v) :: rest)
      = update_values (.obj (dset dm k v)) rest := by
  cases v with
  | str s => exact update_values_str dm k s rest
  | num n => exact update_values_num dm k n rest
  | bool b => exact update_values_bool dm k b rest
  | null => exact update_values_null dm k rest
  | arr xs => simp [isScalar] at h
  | obj m => simp [isScalar] at h

/-! ## Dictionary lemmas -/

theorem dget?_dset_self (d : Doc) (k : String) (v : Value) :
    dget? (dset d k v) k = some v := by
  induction d with
  | nil => simp [dset, dget?]
  | cons hd rest ih =>
    obtain ⟨k1, v1⟩ := hd
    by_cases hk : k1 = k
    · simp [dset, hk, dget?]
    · simp [dset, hk, dget?, ih]

theorem dkeys_nil : dkeys ([] : Doc) = [] := rfl

theorem dkeys_cons (k1 : String) (v1 : Value) (rest : Doc) :
    dkeys ((k1, v1) :: rest) = k1 :: dkeys rest := rfl

theorem dget?_nil (k : String) : dget? [] k = none := rfl

theorem dget?_cons_eq (k1 k : String) (v1 : Value) (rest : Doc) (h : k1 = k) :
    dget? ((k1, v1) :: rest) k = some v1 := by
  unfold dget?; rw [if_pos h]

theorem dget?_cons_ne (k1 k : String) (v1 : Value) (rest : Doc) (h : k1 ≠ k) :
    dget? ((k1, v1) :: rest) k = dget? rest k := by
  conv_lhs => unfold dget?
  rw [if_neg h]

theorem dset_nil (k : String) (v : Value) : dset [] k v = [(k, v)] := rfl

theorem dset_cons_eq (k1 k : String) (v1 v : Value) (rest : Doc) (h : k1 = k) :
    dset ((k1, v1) :: rest) k v = (k1, v) :: rest := by
  unfold dset; rw [if_pos h]

theorem dset_cons_ne (k1 k : String) (v1 v : Value) (rest : Doc) (h : k1 ≠ k) :
    dset ((k1, v1) :: rest) k v = (k1, v1) :: dset rest k v := by
  conv_lhs => unfold dset
  rw [if_neg h]

theorem dget?_dset_ne (d : Doc) (k k1 : String) (v : Value) (h : k1 ≠ k) :
    dget? (dset d k v) k1 = dget? d k1 := by
  induction d with
  | nil =>
    rw [dset_nil, dget?_nil, dget?_cons_ne k k1 v [] (fun hh => h hh.symm), dget?_nil]
  | cons hd rest ih =>
    obtain ⟨k2, v2⟩ := hd
    by_cases hk : k2 = k
    · rw [dset_cons_eq k2 k v2 v rest hk]
      have hne : k2 ≠ k1 := fun hh => h (hh.symm.trans hk)
      rw [dget?_cons_ne k2 k1 v rest hne, dget?_cons_ne k2 k1 v2 rest hne]
    · rw [dset_cons_ne k2 k v2 v rest hk]
      by_cases hk2 : k2 = k1
      · rw [dget?_cons_eq k2 k1 v2 (dset rest k v) hk2, dget?_cons_eq k2 k1 v2 rest hk2]
      · rw [dget?_cons_ne k2 k1 v2 (dset rest k v) hk2, dget?_cons_ne k2 k1 v2 rest hk2, ih]

theorem dhas_dset_mono (d : Doc) (k k1 : String) (v : Value) (h : dhas d k1 = true) :
    dhas (dset d k v) k1 = true := by
  by_cases hk : k1 = k
  · subst hk; simp [dhas, dget?_dset_self]
  · simpa [dhas, dget?_dset_ne d k k1 v hk] using h

theorem dget?_eq_none_iff (d : Doc) (k : String) :
    dget? d k = none ↔ k ∉ dkeys d := by
  induction d with
  | nil => simp [dget?_nil, dkeys_nil]
  | cons hd rest ih =>
    obtain ⟨k1, v1⟩ := hd
    rw [dkeys_cons]
    by_cases hk : k1 = k
    · subst hk
      rw [dget?_cons_eq k1 k1 v1 rest rfl]
      simp
    · rw [dget?_cons_ne k1 k v1 rest hk, ih]
      constructor
      · intro hnot hmem
        rcases List.mem_cons.mp hmem with hh | hh
        · exact hk hh.symm
        · exact hnot hh
      · intro hnot hmem
        exact hnot (List.mem_cons_of_mem k1 hmem)

theorem dhas_iff_mem_dkeys (d : Doc) (k : String) :
    dhas d k = true ↔ k ∈ dkeys d := by
  unfold dhas
  rcases hd : dget? d k with _ | v
  · simpa [Option.isSome] using (dget?_eq_none_iff d k).mp hd
  · simp only [Option.isSome_some, true_iff]
    have hne : dget? d k ≠ none := by simp [hd]
    by_contra hmem
    exact hne ((dget?_eq_none_iff d k).mpr hmem)

theorem dkeys_dset_of_mem (d : Doc) (k : String) (v : Value) (h : k ∈ dkeys d) :
    dkeys (dset d k v) = dkeys d := by
  induction d with
  | nil => simp [dkeys_nil] at h
  | cons hd rest ih =>
    obtain ⟨k1, v1⟩ := hd
    by_cases hk : k1 = k
    · rw [dset_cons_eq k1 k v1 v rest hk, dkeys_cons, dkeys_cons]
    · have hmem : k ∈ dkeys rest := by
        rcases List.mem_cons.mp (by rwa [dkeys_cons] at h) with hh | hh
        · exact absurd hh.symm hk
        · exact hh
      rw [dset_cons_ne k1 k v1 v rest hk, dkeys_cons, dkeys_cons, ih hmem]

theorem dkeys_dset_of_not_mem (d : Doc) (k : String) (v : Value) (h : k ∉ dkeys d) :
    dkeys (dset d k v) = dkeys d ++ [k] := by
  induction d with
  | nil => rfl
  | cons hd rest ih =>
    obtain ⟨k1, v1⟩ := hd
    have hk : k1 ≠ k := by
      intro hh; exact h (by rw [dkeys_cons, hh]; exact List.mem_cons_self k (dkeys rest))
    have hmem : k ∉ dkeys rest := by
      intro hh; exact h (by rw [dkeys_cons]; exact List.mem_cons_of_mem k1 hh)
    rw [dset_cons_ne k1 k v1 v rest hk, dkeys_cons, dkeys_cons, ih hmem]
    rfl

theorem wf_dset (d : Doc) (k : String) (v : Value) (h : (dkeys d).Nodup) :
    (dkeys (dset d k v)).Nodup := by
  by_cases hk : k ∈ dkeys d
  · simpa [dkeys_dset_of_mem d k v hk] using h
  · simp [dkeys_dset_of_not_mem d k v hk, List.nodup_append, h, hk]

/-! ## Container lemmas -/

theorem findOne_cons_hit (doc : Doc) (rest : List Doc) (id_ : String)
    (h : hasId doc id_ = true) : findOne (doc :: rest) id_ = some doc := by
  unfold findOne; rw [if_pos h]

theorem findOne_cons_miss (doc : Doc) (rest : List Doc) (id_ : String)
    (h : hasId doc id_ = false) : findOne (doc :: rest) id_ = findOne rest id_ := by
  conv_lhs => unfold findOne
  rw [if_neg (by simp [h])]

theorem findOne_eq_none_iff (c : List Doc) (id_ : String) :
    findOne c id_ = none ↔ ∀ doc ∈ c, hasId doc id_ = false := by
  induction c with
  | nil => simp [findOne]
  | cons doc rest ih =>
    rcases hh : hasId doc id_ with _ | _
    · rw [findOne_cons_miss doc rest id_ hh, ih]
      simp [hh]
    · rw [findOne_cons_hit doc rest id_ hh]
      simp [hh]

theorem findOne_append_left_none (c1 c2 : List Doc) (id_ : String)
    (h : findOne c1 id_ = none) :
    findOne (c1 ++ c2) id_ = findOne c2 id_ := by
  induction c1 with
  | nil => rfl
  | cons doc rest ih =>
    have hd : hasId doc id_ = false :=
      (findOne_eq_none_iff (doc :: rest) id_).mp h doc (List.mem_cons_self doc rest)
    have hr : findOne rest id_ = none := by
      rw [findOne_eq_none_iff]
      intro d hdmem
      exact (findOne_eq_none_iff (doc :: rest) id_).mp h d (List.mem_cons_of_mem doc hdmem)
    rw [List.cons_append, findOne_cons_miss doc (rest ++ c2) id_ hd, ih hr]

/-- A successful `find_one` splits the container at the first match. -/
theorem findOne_eq_some (c : List Doc) (id_ : String) (doc : Doc)
    (h : findOne c id_ = some doc) :
    ∃ pre post, c = pre ++ doc :: post ∧ (∀ d ∈ pre, hasId d id_ = false) ∧
      hasId doc id_ = true := by
  induction c with
  | nil => simp [findOne] at h
  | cons d0 rest ih =>
    rcases hh : hasId d0 id_ with _ | _
    · rw [findOne_cons_miss d0 rest id_ hh] at h
      obtain ⟨pre, post, hc, hpre, hdoc⟩ := ih h
      refine ⟨d0 :: pre, post, by rw [hc]; rfl, ?_, hdoc⟩
      intro d hd
      rcases List.mem_cons.mp hd with hd | hd
      · rw [hd]; exact hh
      · exact hpre d hd
    · rw [findOne_cons_hit d0 rest id_ hh] at h
      exact ⟨[], rest, by rw [Option.some.inj h]; rfl, by simp, (Option.some.inj h) ▸ hh⟩

theorem updateOneSet_eq_none_iff (c : List Doc) (id_ : String) (data : Doc) :
    updateOneSet c id_ data = none ↔ findOne c id_ = none := by
  induction c with
  | nil => simp [updateOneSet, findOne]
  | cons doc rest ih =>
    rcases hh : hasId doc id_ with _ | _
    · rw [findOne_cons_miss doc rest id_ hh]
      unfold updateOneSet
      rw [if_neg (by simp [hh])]
      rcases hr : updateOneSet rest id_ data with _ | c1
      · simp [ih.mp hr]
      · have : findOne rest id_ ≠ none := by
          intro hn
          rw [← ih] at hn
          rw [hn] at hr
          cases hr
        simp [Option.map]
        intro hfr
        exact absurd hfr this
    · unfold updateOneSet
      rw [if_pos hh, findOne_cons_hit doc rest id_ hh]
      simp

/-- A matched `$set` update rewrites exactly the first matching document. -/
theorem updateOneSet_decomp (pre post : List Doc) (doc : Doc) (id_ : String) (data : Doc)
    (hpre : ∀ d ∈ pre, hasId d id_ = false) (hdoc : hasId doc id_ = true) :
    updateOneSet (pre ++ doc :: post) id_ data
      = some (pre ++ setFields doc data :: post) := by
  induction pre with
  | nil =>
    rw [List.nil_append]
    simp only [updateOneSet]
    rw [if_pos hdoc, List.nil_append]
  | cons d0 rest ih =>
    have hd0 : hasId d0 id_ = false := hpre d0 (List.mem_cons_self d0 rest)
    have hrest : ∀ d ∈ rest, hasId d id_ = false :=
      fun d hd => hpre d (List.mem_cons_of_mem d0 hd)
    rw [List.cons_append]
    unfold updateOneSet
    rw [if_neg (by simp [hd0]), ih hrest]
    rfl

theorem replaceOneUpsert_all_miss (c : List Doc) (id_ : String) (data : Doc)
    (h : ∀ d ∈ c, hasId d id_ = false) :
    replaceOneUpsert c id_ data
      = c ++ [if dhas data "_id" then data else dset data "_id" (.str id_)] := by
  induction c with
  | nil => rfl
  | cons doc rest ih =>
    have hd : hasId doc id_ = false := h doc (List.mem_cons_self doc rest)
    have hrest : ∀ d ∈ rest, hasId d id_ = false :=
      fun d hdm => h d (List.mem_cons_of_mem doc hdm)
    unfold replaceOneUpsert
    rw [if_neg (by simp [hd]), ih hrest]
    rfl

theorem replaceOneUpsert_decomp (pre post : List Doc) (doc : Doc) (id_ : String) (data : Doc)
    (hpre : ∀ d ∈ pre, hasId d id_ = false) (hdoc : hasId doc id_ = true) :
    replaceOneUpsert (pre ++ doc :: post) id_ data
      = pre ++ (if dhas data "_id" then data else dset data "_id" (.str id_)) :: post := by
  induction pre with
  | nil =>
    rw [List.nil_append]
    unfold replaceOneUpsert
    rw [if_pos hdoc]
    rfl
  | cons d0 rest ih =>
    have hd0 : hasId d0 id_ = false := hpre d0 (List.mem_cons_self d0 rest)
    have hrest : ∀ d ∈ rest, hasId d id_ = false :=
      fun d hd => hpre d (List.mem_cons_of_mem d0 hd)
    rw [List.cons_append]
    unfold replaceOneUpsert
    rw [if_neg (by simp [hd0]), ih hrest]
    rfl

theorem deleteOne_sublist (c : List Doc) (id_ : String) :
    (deleteOne c id_).Sublist c := by
  induction c with
  | nil => exact List.Sublist.refl []
  | cons doc rest ih =>
    unfold deleteOne
    by_cases hh : hasId doc id_ = true
    · rw [if_pos hh]
      exact List.sublist_cons_of_sublist doc (List.Sublist.refl rest)
    · rw [if_neg hh]
      exact List.Sublist.cons₂ doc ih

/-! ## `setFields` lemmas -/

theorem setFields_nil (doc : Doc) : setFields doc [] = doc := rfl

theorem setFields_cons (doc : Doc) (k : String) (v : Value) (rest : Doc) :
    setFields doc ((k, v) :: rest) = setFields (dset doc k v) rest := rfl

theorem dget?_setFields_not_mem (data : Doc) (doc : Doc) (k : String)
    (h : k ∉ dkeys data) :
    dget? (setFields doc data) k = dget? doc k := by
  induction data generalizing doc with
  | nil => rfl
  | cons hd rest ih =>
    obtain ⟨k1, v1⟩ := hd
    have hk : k1 ≠ k := by
      intro hh; exact h (by rw [dkeys_cons, hh]; exact List.mem_cons_self k (dkeys rest))
    have hmem : k ∉ dkeys rest := by
      intro hh; exact h (by rw [dkeys_cons]; exact List.mem_cons_of_mem k1 hh)
    rw [setFields_cons, ih (dset doc k1 v1) hmem, dget?_dset_ne doc k1 k v1 (fun hh => hk hh.symm)]

theorem dget?_setFields_of_get (data : Doc) (doc : Doc) (k : String) (v : Value)
    (hnd : (dkeys data).Nodup) (h : dget? data k = some v) :
    dget? (setFields doc data) k = some v := by
  induction data generalizing doc with
  | nil => simp [dget?_nil] at h
  | cons hd rest ih =>
    obtain ⟨k1, v1⟩ := hd
    rw [dkeys_cons] at hnd
    by_cases hk : k1 = k
    · subst hk
      rw [dget?_cons_eq k1 k1 v1 rest rfl] at h
      rw [setFields_cons,
        dget?_setFields_not_mem rest (dset doc k1 v1) k1 (List.nodup_cons.mp hnd).1,
        dget?_dset_self, h]
    · rw [dget?_cons_ne k1 k v1 rest hk] at h
      rw [setFields_cons]
      exact ih (dset doc k1 v1) (List.nodup_cons.mp hnd).2 h

theorem wf_setFields (data : Doc) (doc : Doc) (h : (dkeys doc).Nodup) :
    (dkeys (setFields doc data)).Nodup := by
  induction data generalizing doc with
  | nil => exact h
  | cons hd rest ih =>
    obtain ⟨k1, v1⟩ := hd
    rw [setFields_cons]
    exact ih (dset doc k1 v1) (wf_dset doc k1 v1 h)

/-! ## Structural lemmas about the migration merge `update_values` -/

/-- Merging into a dict yields a dict (every branch re-wraps `.obj`). -/
theorem update_values_obj_shape (u : Doc) :
    ∀ (dm : Doc) (r : Value), update_values (.obj dm) u = some r → ∃ rm, r = .obj rm := by
  induction u with
  | nil =>
    intro dm r h
    rw [update_values_nil] at h
    exact ⟨dm, (Option.some.inj h).symm⟩
  | cons hd rest ih =>
    intro dm r h
    obtain ⟨k, v⟩ := hd
    cases v with
    | str s => rw [update_values_str] at h; exact ih _ r h
    | num n => rw [update_values_num] at h; exact ih _ r h
    | bool b => rw [update_values_bool] at h; exact ih _ r h
    | null => rw [update_values_null] at h; exact ih _ r h
    | arr xs => rw [update_values_arr] at h; exact ih dm r h
    | obj m =>
      rw [update_values_objv] at h
      rcases hm : update_values ((dget? dm k).getD (.obj [])) m with _ | r0
      · rw [hm] at h; simp at h
      · rw [hm] at h; exact ih _ r h

/-- A key never named by `u` keeps the value it has in `d`. -/
theorem update_values_not_mem (u : Doc) :
    ∀ (dm rm : Doc) (k : String), k ∉ dkeys u →
      update_values (.obj dm) u = some (.obj rm) → dget? rm k = dget? dm k := by
  induction u with
  | nil =>
    intro dm rm k _ h
    rw [update_values_nil] at h
    rw [Value.obj.inj (Option.some.inj h)]
  | cons hd rest ih =>
    intro dm rm k hk h
    obtain ⟨k0, v⟩ := hd
    have hkk0 : k ≠ k0 := by
      intro hh; exact hk (by rw [dkeys_cons, hh]; exact List.mem_cons_self k0 (dkeys rest))
    have hkrest : k ∉ dkeys rest := by
      intro hh; exact hk (by rw [dkeys_cons]; exact List.mem_cons_of_mem k0 hh)
    cases v with
    | arr xs => rw [update_values_arr] at h; exact ih dm rm k hkrest h
    | str s =>
      rw [update_values_str] at h
      rw [ih _ rm k hkrest h, dget?_dset_ne dm k0 k _ hkk0]
    | num n =>
      rw [update_values_num] at h
      rw [ih _ rm k hkrest h, dget?_dset_ne dm k0 k _ hkk0]
    | bool b =>
      rw [update_values_bool] at h
      rw [ih _ rm k hkrest h, dget?_dset_ne dm k0 k _ hkk0]
    | null =>
      rw [update_values_null] at h
      rw [ih _ rm k hkrest h, dget?_dset_ne dm k0 k _ hkk0]
    | obj m =>
      rw [update_values_objv] at h
      rcases hm : update_values ((dget? dm k0).getD (.obj [])) m with _ | r0
      · rw [hm] at h; simp at h
      · rw [hm] at h
        rw [ih _ rm k hkrest h, dget?_dset_ne dm k0 k r0 hkk0]

/-- The merge never removes a key of `d`. -/
theorem update_values_dhas_mono (u : Doc) :
    ∀ (dm rm : Doc) (k : String), update_values (.obj dm) u = some (.obj rm) →
      dhas dm k = true → dhas rm k = true := by
  induction u with
  | nil =>
    intro dm rm k h hd
    rw [update_values_nil] at h
    rw [← Value.obj.inj (Option.some.inj h)]
    exact hd
  | cons hd rest ih =>
    intro dm rm k h hdm
    obtain ⟨k0, v⟩ := hd
    cases v with
    | arr xs => rw [update_values_arr] at h; exact ih dm rm k h hdm
    | str s =>
      rw [update_values_str] at h
      exact ih _ rm k h (dhas_dset_mono dm k0 k _ hdm)
    | num n =>
      rw [update_values_num] at h
      exact ih _ rm k h (dhas_dset_mono dm k0 k _ hdm)
    | bool b =>
      rw [update_values_bool] at h
      exact ih _ rm k h (dhas_dset_mono dm k0 k _ hdm)
    | null =>
      rw [update_values_null] at h
      exact ih _ rm k h (dhas_dset_mono dm k0 k _ hdm)
    | obj m =>
      rw [update_values_objv] at h
      rcases hm : update_values ((dget? dm k0).getD (.obj [])) m with _ | r0
      · rw [hm] at h; simp at h
      · rw [hm] at h
        exact ih _ rm k h (dhas_dset_mono dm k0 k _ hdm)

/-- The merge keeps the accumulating dict's keys unique. -/
theorem update_values_wf (u : Doc) :
    ∀ (dm rm : Doc), (dkeys dm).Nodup →
      update_values (.obj dm) u = some (.obj rm) → (dkeys rm).Nodup := by
  induction u with
  | nil =>
    intro dm rm hwf h
    rw [update_values_nil] at h
    rw [← Value.obj.inj (Option.some.inj h)]
    exact hwf
  | cons hd rest ih =>
    intro dm rm hwf h
    obtain ⟨k0, v⟩ := hd
    cases v with
    | arr xs => rw [update_values_arr] at h; exact ih dm rm hwf h
    | str s =>
      rw [update_values_str] at h
      exact ih _ rm (wf_dset dm k0 _ hwf) h
    | num n =>
      rw [update_values_num] at h
      exact ih _ rm (wf_dset dm k0 _ hwf) h
    | bool b =>
      rw [update_values_bool] at h
      exact ih _ rm (wf_dset dm k0 _ hwf) h
    | null =>
      rw [update_values_null] at h
      exact ih _ rm (wf_dset dm k0 _ hwf) h
    | obj m =>
      rw [update_values_objv] at h
      rcases hm : update_values ((dget? dm k0).getD (.obj [])) m with _ | r0
      · rw [hm] at h; simp at h
      · rw [hm] at h
        exact ih _ rm (wf_dset dm k0 r0 hwf) h

/-- A scalar value of the stored document `u` ends up verbatim in the
merge output, overwriting whatever the template had at that key. -/
theorem update_values_scalar_wins (u : Doc) :
    ∀ (dm rm : Doc) (k : String) (v : Value), (dkeys u).Nodup →
      dget? u k = some v → isScalar v = true →
      update_values (.obj dm) u = some (.obj rm) → dget? rm k = some v := by
  induction u with
  | nil =>
    intro dm rm k v _ hv _ _
    rw [dget?_nil] at hv
    cases hv
  | cons hd rest ih =>
    intro dm rm k v hnd hv hs h
    obtain ⟨k0, v0⟩ := hd
    rw [dkeys_cons] at hnd
    have hnd0 := (List.nodup_cons.mp hnd).1
    have hndr := (List.nodup_cons.mp hnd).2
    by_cases hk : k0 = k
    · subst hk
      rw [dget?_cons_eq k0 k0 v0 rest rfl] at hv
      obtain rfl : v0 = v := Option.some.inj hv
      rw [update_values_scalar dm k0 v0 rest hs] at h
      rw [update_values_not_mem rest _ rm k0 hnd0 h, dget?_dset_self]
    · rw [dget?_cons_ne k0 k v0 rest hk] at hv
      cases v0 with
      | arr xs => rw [update_values_arr] at h; exact ih dm rm k v hndr hv hs h
      | str s => rw [update_values_str] at h; exact ih _ rm k v hndr hv hs h
      | num n => rw [update_values_num] at h; exact ih _ rm k v hndr hv hs h
      | bool b => rw [update_values_bool] at h; exact ih _ rm k v hndr hv hs h
      | null => rw [update_values_null] at h; exact ih _ rm k v hndr hv hs h
      | obj m =>
        rw [update_values_objv] at h
        rcases hm : update_values ((dget? dm k0).getD (.obj [])) m with _ | r0
        · rw [hm] at h; simp at h
        · rw [hm] at h; exact ih _ rm k v hndr hv hs h

/-- A sequence value of the stored document is skipped: the output keeps
the template's value at that key (or its absence). -/
theorem update_values_arr_skip (u : Doc) :
    ∀ (dm rm : Doc) (k : String) (xs : List Value), (dkeys u).Nodup →
      dget? u k = some (.arr xs) →
      update_values (.obj dm) u = some (.obj rm) → dget? rm k = dget? dm k := by
  induction u with
  | nil =>
    intro dm rm k xs _ hv _
    rw [dget?_nil] at hv
    cases hv
  | cons hd rest ih =>
    intro dm rm k xs hnd hv h
    obtain ⟨k0, v0⟩ := hd
    rw [dkeys_cons] at hnd
    have hnd0 := (List.nodup_cons.mp hnd).1
    have hndr := (List.nodup_cons.mp hnd).2
    by_cases hk : k0 = k
    · subst hk
      rw [dget?_cons_eq k0 k0 v0 rest rfl] at hv
      obtain rfl : v0 = Value.arr xs := Option.some.inj hv
      rw [update_values_arr] at h
      exact update_values_not_mem rest dm rm k0 hnd0 h
    · rw [dget?_cons_ne k0 k v0 rest hk] at hv
      have hkk0 : k ≠ k0 := fun hh => hk hh.symm
      cases v0 with
      | arr ys => rw [update_values_arr] at h; exact ih dm rm k xs hndr hv h
      | str s =>
        rw [update_values_str] at h
        rw [ih _ rm k xs hndr hv h, dget?_dset_ne dm k0 k _ hkk0]
      | num n =>
        rw [update_values_num] at h
        rw [ih _ rm k xs hndr hv h, dget?_dset_ne dm k0 k _ hkk0]
      | bool b =>
        rw [update_values_bool] at h
        rw [ih _ rm k xs hndr hv h, dget?_dset_ne dm k0 k _ hkk0]
      | null =>
        rw [update_values_null] at h
        rw [ih _ rm k xs hndr hv h, dget?_dset_ne dm k0 k _ hkk0]
      | obj m =>
        rw [update_values_objv] at h
        rcases hm : update_values ((dget? dm k0).getD (.obj [])) m with _ | r0
        · rw [hm] at h; simp at h
        · rw [hm] at h
          rw [ih _ rm k xs hndr hv h, dget?_dset_ne dm k0 k r0 hkk0]

/-- A mapping value of the stored document leaves its key present in the
merge output (bound to the recursive merge result). -/
theorem update_values_obj_key (u : Doc) :
    ∀ (dm rm : Doc) (k : String) (m : Doc), (dkeys u).Nodup →
      dget? u k = some (.obj m) →
      update_values (.obj dm) u = some (.obj rm) → dhas rm k = true := by
  induction u with
  | nil =>
    intro dm rm k m _ hv _
    rw [dget?_nil] at hv
    cases hv
  | cons hd rest ih =>
    intro dm rm k m hnd hv h
    obtain ⟨k0, v0⟩ := hd
    rw [dkeys_cons] at hnd
    have hnd0 := (List.nodup_cons.mp hnd).1
    have hndr := (List.nodup_cons.mp hnd).2
    by_cases hk : k0 = k
    · subst hk
      rw [dget?_cons_eq k0 k0 v0 rest rfl] at hv
      obtain rfl : v0 = Value.obj m := Option.some.inj hv
      rw [update_values_objv] at h
      rcases hm : update_values ((dget? dm k0).getD (.obj [])) m with _ | r0
      · rw [hm] at h; simp at h
      · rw [hm] at h
        rw [dhas, update_values_not_mem rest _ rm k0 hnd0 h, dget?_dset_self]
        rfl
    · rw [dget?_cons_ne k0 k v0 rest hk] at hv
      cases v0 with
      | arr ys => rw [update_values_arr] at h; exact ih dm rm k m hndr hv h
      | str s => rw [update_values_str] at h; exact ih _ rm k m hndr hv h
      | num n => rw [update_values_num] at h; exact ih _ rm k m hndr hv h
      | bool b => rw [update_values_bool] at h; exact ih _ rm k m hndr hv h
      | null => rw [update_values_null] at h; exact ih _ rm k m hndr hv h
      | obj m2 =>
        rw [update_values_objv] at h
        rcases hm : update_values ((dget? dm k0).getD (.obj [])) m2 with _ | r0
        · rw [hm] at h; simp at h
        · rw [hm] at h; exact ih _ rm k m hndr hv h

/-! ## Path reductions for the three `get_data` variants -/

theorem local_get_data_miss (tmpl : Doc) (id_ : String) (c : List Doc)
    (hfind : findOne c id_ = none) :
    local_get_data tmpl id_ c
      = some (dset tmpl "_id" (.str id_), c ++ [dset tmpl "_id" (.str id_)]) := by
  simp only [local_get_data]
  rw [hfind]

theorem local_get_data_fresh (tmpl : Doc) (id_ : String) (c : List Doc) (data : Doc)
    (dv tv : Value)
    (hfind : findOne c id_ = some data)
    (hdv : dget? data "ver" = some dv)
    (htv : dget? tmpl "ver" = some tv)
    (hlt : pyLt? dv tv = some false) :
    local_get_data tmpl id_ c = some (data, c) := by
  simp only [local_get_data]
  rw [hfind]
  simp only [hdv, htv, hlt]

theorem local_get_data_stale (tmpl : Doc) (id_ : String) (c : List Doc) (data : Doc)
    (dv tv : Value) (m : Doc)
    (hfind : findOne c id_ = some data)
    (hdv : dget? data "ver" = some dv)
    (htv : dget? tmpl "ver" = some tv)
    (hlt : pyLt? dv tv = some true)
    (hm : update_values (.obj tmpl) data = some (.obj m)) :
    local_get_data tmpl id_ c
      = some (dset m "ver" tv, (local_update_data id_ (dset m "ver" tv) c).2) := by
  simp only [local_get_data]
  rw [hfind]
  simp only [hdv, htv, hlt, hm]

theorem old_get_data_miss (tmpl : Doc) (id_ : String) (c : List Doc)
    (hfind : findOne c id_ = none) :
    old_get_data tmpl id_ c
      = some (dset tmpl "_id" (.str id_), c ++ [dset tmpl "_id" (.str id_)]) := by
  simp only [old_get_data]
  rw [hfind]

theorem old_get_data_fresh (tmpl : Doc) (id_ : String) (c : List Doc) (data : Doc)
    (dv tv : Value)
    (hfind : findOne c id_ = some data)
    (hdv : dget? data "ver" = some dv)
    (htv : dget? tmpl "ver" = some tv)
    (hlt : pyLt? dv tv = some false) :
    old_get_data tmpl id_ c = some (data, c) := by
  simp only [old_get_data]
  rw [hfind]
  simp only [hdv, htv, hlt]

theorem old_get_data_stale (tmpl : Doc) (id_ : String) (c : List Doc) (data : Doc)
    (dv tv : Value) (m : Doc)
    (hfind : findOne c id_ = some data)
    (hdv : dget? data "ver" = some dv)
    (htv : dget? tmpl "ver" = some tv)
    (hlt : pyLt? dv tv = some true)
    (hm : update_values (.obj tmpl) data = some (.obj m)) :
    old_get_data tmpl id_ c
      = some (dset m "ver" tv, (old_update_data id_ (dset m "ver" tv) c).2) := by
  simp only [old_get_data]
  rw [hfind]
  simp only [hdv, htv, hlt, hm]

theorem mongo_get_data_miss (tmpl : Doc) (id_ : String) (c : List Doc)
    (hfind : findOne c id_ = none) :
    mongo_get_data tmpl id_ c = some (tmpl, c) := by
  simp only [mongo_get_data]
  rw [hfind]

theorem mongo_get_data_fresh (tmpl : Doc) (id_ : String) (c : List Doc) (data : Doc)
    (dv tv : Value)
    (hfind : findOne c id_ = some data)
    (hdv : dget? data "ver" = some dv)
    (htv : dget? tmpl "ver" = some tv)
    (hlt : pyLt? dv tv = some false) :
    mongo_get_data tmpl id_ c = some (data, c) := by
  simp only [mongo_get_data]
  rw [hfind]
  simp only [hdv, htv, hlt]

theorem mongo_get_data_stale (tmpl : Doc) (id_ : String) (c : List Doc) (data : Doc)
    (dv tv : Value) (m : Doc)
    (hfind : findOne c id_ = some data)
    (hdv : dget? data "ver" = some dv)
    (htv : dget? tmpl "ver" = some tv)
    (hlt : pyLt? dv tv = some true)
    (hm : update_values (.obj tmpl) data = some (.obj m)) :
    mongo_get_data tmpl id_ c
      = some (dset m "ver" tv, mongo_update_data id_ (dset m "ver" tv) c) := by
  simp only [mongo_get_data]
  rw [hfind]
  simp only [hdv, htv, hlt, hm]

/-! ## The spec's migration scenario (spec §8) -/

/-- The scenario template `{ver: 1.2, prefix: "", custom_skins: {}}`. -/
def scenario_template : Doc :=
  [("ver", .num 1.2), ("prefix", .str ""), ("custom_skins", .obj [])]

/-- The scenario stored document `{_id: "1", ver: 1.0, prefix: "!!"}`. -/
def scenario_stored : Doc :=
  [("_id", .str "1"), ("ver", .num 1.0), ("prefix", .str "!!")]

/-- The merge of the global guild template (ver 1.2) with the scenario
stored document, before the caller resets `ver`. -/
def c2_merged : Doc :=
  [("ver", .num 1.0), ("prefix", .str "!!"), ("global_skin", .bool false),
   ("player_skin", .null), ("player_skin_static", .null),
   ("custom_skins", .obj []), ("custom_skins_static", .obj []), ("_id", .str "1")]

/-- C1, counterexample.  The claim says the migration merge overwrites
stored scalars with the template's values, so that in the scenario
`get("1")` returns the template's `prefix` (the empty string).  In fact
`update_values(d, u)` iterates over the *stored* document `u` and writes
its scalars into the template copy `d`, so `get("1")` returns the
*stored* `prefix` `"!!"`, which differs from the template's `""`. -/
theorem C1_counterexample :
    (local_get_data scenario_template "1" [scenario_stored]).map (fun p => dget? p.1 "prefix")
      = some (some (.str "!!"))
    ∧ Value.str "!!" ≠ Value.str "" := by
  constructor
  · have hm : update_values (.obj scenario_template) scenario_stored
        = some (.obj [("ver", .num 1.0), ("prefix", .str "!!"),
          ("custom_skins", .obj []), ("_id", .str "1")]) := by
      simp [scenario_template, scenario_stored, update_values_str, update_values_num,
        update_values_nil, dset, dget?]
    have hlt : pyLt? (.num 1.0) (.num 1.2) = some true := by
      simp [pyLt?]
      norm_num
    rw [local_get_data_stale scenario_template "1" [scenario_stored] scenario_stored
      (.num 1.0) (.num 1.2) _ rfl rfl rfl hlt hm]
    simp [dset, dget?]
  · intro h
    injection h with h1
    exact absurd h1 (by decide)

/-- C1, amended.  For every top-level key of the stored document holding
a scalar (neither mapping nor sequence), the merge output carries the
*stored* value at that key — stored scalars overwrite the template's
values, not the reverse; in the spec scenario `get("1")` therefore
returns `prefix = "!!"`. -/
theorem C1_amended_stored_scalar_wins (tmpl u m : Doc) (k : String) (v : Value)
    (hnd : (dkeys u).Nodup) (hv : dget? u k = some v) (hs : isScalar v = true)
    (hm : update_values (.obj tmpl) u = some (.obj m)) :
    dget? m k = some v :=
  update_values_scalar_wins u tmpl m k v hnd hv hs hm

/-- C1, witness: the amended theorem applied to the spec scenario. -/
theorem C1_witness :
    dget? [("ver", .num 1.0), ("prefix", .str "!!"), ("custom_skins", .obj []),
      ("_id", .str "1")] "prefix" = some (.str "!!") :=
  C1_amended_stored_scalar_wins scenario_template scenario_stored
    [("ver", .num 1.0), ("prefix", .str "!!"), ("custom_skins", .obj []), ("_id", .str "1")]
    "prefix" (.str "!!") (by decide) rfl rfl
    (by simp [scenario_template, scenario_stored, update_values_str, update_values_num,
      update_values_nil, dset, dget?])

/-- C4, counterexample.  The claim says every key present only in the
stored document is dropped by the merge.  `_id` is present only in the
stored document (no registry template carries `_id`), yet the merge
output contains it: non-sequence keys of the stored document are written
into the output whether or not the template has them. -/
theorem C4_counterexample :
    update_values (.obj [("ver", .num 1.2)]) [("_id", .str "1")]
      = some (.obj [("ver", .num 1.2), ("_id", .str "1")])
    ∧ dhas [("ver", .num 1.2), ("_id", .str "1")] "_id" = true := by
  constructor
  · simp [update_values_str, update_values_nil, dset, dget?]
  · rfl

/-- C4, amended.  Of the keys present only in the stored document, the
merge drops exactly the sequence-valued ones; stored-only scalar keys are
copied into the output verbatim and stored-only mapping keys are kept
(bound to the recursive merge of their value against an empty dict). -/
theorem C4_amended_only_sequences_dropped (tmpl u m : Doc) (k : String)
    (hnd : (dkeys u).Nodup) (hk : dhas tmpl k = false)
    (hm : update_values (.obj tmpl) u = some (.obj m)) :
    (∀ xs, dget? u k = some (.arr xs) → dhas m k = false)
    ∧ (∀ v, dget? u k = some v → isScalar v = true → dget? m k = some v)
    ∧ (∀ e, dget? u k = some (.obj e) → dhas m k = true) := by
  refine ⟨?_, ?_, ?_⟩
  · intro xs hv
    have h1 : dget? m k = dget? tmpl k := update_values_arr_skip u tmpl m k xs hnd hv hm
    unfold dhas at hk ⊢
    rw [h1]
    exact hk
  · intro v hv hs
    exact update_values_scalar_wins u tmpl m k v hnd hv hs hm
  · intro e hv
    exact update_values_obj_key u tmpl m k e hnd hv hm

/-- C4, witness: the amended theorem applied to a stored document with a
sequence-only key (dropped), a scalar-only key (kept: the `_id` of C4's
counterexample) and a mapping-only key (kept). -/
theorem C4_witness :
    (∀ xs, dget? [("old_list", .arr [.num 1])] "old_list" = some (.arr xs) →
      dhas [("ver", .num 1.2)] "old_list" = false)
    ∧ (∀ v, dget? [("old_list", .arr [.num 1])] "old_list" = some v →
        isScalar v = true → dget? [("ver", .num 1.2)] "old_list" = some v)
    ∧ (∀ e, dget? [("old_list", .arr [.num 1])] "old_list" = some (.obj e) →
        dhas [("ver", .num 1.2)] "old_list" = true) :=
  C4_amended_only_sequences_dropped [("ver", .num 1.2)] [("old_list", .arr [.num 1])]
    [("ver", .num 1.2)] "old_list" (by decide) rfl
    (by simp [update_values_arr, update_values_nil])

/-- C5, counterexample.  The claim says that for a sequence-typed
template key the merge does not overwrite the stored value, and that a
sequence key newly added to the template does not appear in the output.
Both parts fail: for template `{ver: 1.7, djroles: []}` and stored
`{_id: "1", ver: 1.0, djroles: ["x"]}` the output carries the
*template's* `djroles` value `[]`, not the stored `["x"]`; and for a
stored document without `djroles` the new sequence key *does* appear in
the output (with the template default). -/
theorem C5_counterexample :
    update_values (.obj [("ver", .num 1.7), ("djroles", .arr [])])
        [("_id", .str "1"), ("ver", .num 1.0), ("djroles", .arr [.str "x"])]
      = some (.obj [("ver", .num 1.0), ("djroles", .arr []), ("_id", .str "1")])
    ∧ Value.arr [] ≠ Value.arr [.str "x"]
    ∧ update_values (.obj [("ver", .num 1.7), ("djroles", .arr [])])
        [("_id", .str "1"), ("ver", .num 1.0)]
      = some (.obj [("ver", .num 1.0), ("djroles", .arr []), ("_id", .str "1")])
    ∧ dhas [("ver", .num 1.0), ("djroles", .arr []), ("_id", .str "1")] "djroles" = true := by
  refine ⟨?_, ?_, ?_, rfl⟩
  · simp [update_values_str, update_values_num, update_values_arr, update_values_nil,
      dset, dget?]
  · intro h
    injection h with h1
    exact absurd h1 (by simp)
  · simp [update_values_str, update_values_num, update_values_nil, dset, dget?]

/-- C5, amended.  The merge branches on the type of the *stored* value,
not the template's: sequence-typed values of the stored document are
ignored, so the output carries the template's value at such keys (its
default, or nothing if the template lacks the key), and every template
key — sequence-typed keys included — appears in the merge output. -/
theorem C5_amended_stored_sequences_ignored (tmpl u m : Doc) (k : String)
    (hnd : (dkeys u).Nodup)
    (hm : update_values (.obj tmpl) u = some (.obj m)) :
    (∀ xs, dget? u k = some (.arr xs) → dget? m k = dget? tmpl k)
    ∧ (dhas tmpl k = true → dhas m k = true) := by
  constructor
  · intro xs hv
    exact update_values_arr_skip u tmpl m k xs hnd hv hm
  · intro hk
    exact update_values_dhas_mono u tmpl m k hm hk

/-- C5, witness: the amended theorem at the counterexample's template —
the output `djroles` is the template's `[]`, and the template key is
present in the output. -/
theorem C5_witness :
    (∀ xs, dget? [("_id", .str "1"), ("ver", .num 1.0), ("djroles", .arr [.str "x"])]
        "djroles" = some (.arr xs) →
      dget? [("ver", .num 1.0), ("djroles", .arr []), ("_id", .str "1")] "djroles"
        = dget? [("ver", .num 1.7), ("djroles", .arr [])] "djroles")
    ∧ (dhas [("ver", .num 1.7), ("djroles", .arr [])] "djroles" = true →
        dhas [("ver", .num 1.0), ("djroles", .arr []), ("_id", .str "1")] "djroles" = true) :=
  C5_amended_stored_sequences_ignored [("ver", .num 1.7), ("djroles", .arr [])]
    [("_id", .str "1"), ("ver", .num 1.0), ("djroles", .arr [.str "x"])]
    [("ver", .num 1.0), ("djroles", .arr []), ("_id", .str "1")] "djroles" (by decide)
    (by simp [update_values_str, update_values_num, update_values_arr, update_values_nil,
      dset, dget?])

/-- The seeded document of a stored-document miss matches its own id. -/
theorem hasId_dset_id (d : Doc) (id_ : String) :
    hasId (dset d "_id" (.str id_)) id_ = true := by
  unfold hasId
  rw [dget?_dset_self]
  simp

/-- C6, counterexample.  The claim says the Embedded-File variant has
"the same update-then-fallback-insert semantics" as the
Embedded-Relational variant.  They differ observably: on a container
holding `{_id: "1", extra: 1}`, updating id `"1"` with `{ver: 1.0}`
leaves `extra` in place under `LocalDatabase` (`$set` field-merge) but
erases it under `OldLocalDatabase` (`replace_one` replaces the whole
document) — and `OldLocalDatabase` issues a single `replace_one(...,
upsert=True)` call, not an update-then-fallback-insert pair. -/
theorem C6_counterexample :
    (local_update_data "1" [("ver", .num 1.0)] [[("_id", .str "1"), ("extra", .num 1)]]).2
      = [[("_id", .str "1"), ("extra", .num 1), ("ver", .num 1.0)]]
    ∧ (old_update_data "1" [("ver", .num 1.0)] [[("_id", .str "1"), ("extra", .num 1)]]).2
      = [[("ver", .num 1.0), ("_id", .str "1")]]
    ∧ ([[("_id", .str "1"), ("extra", .num 1), ("ver", .num 1.0)]] : List Doc).map
        (fun d => dhas d "extra") = [true]
    ∧ ([[("ver", .num 1.0), ("_id", .str "1")]] : List Doc).map
        (fun d => dhas d "extra") = [false] :=
  ⟨rfl, rfl, rfl, rfl⟩

/-- C6, amended.  `LocalDatabase.update_data` attempts a `$set`-style
update-by-id first and appends an `_id`-stamped insert only when no
document matched; `OldLocalDatabase.update_data` issues a single
replace-with-upsert call that substitutes the caller's document wholly
for the stored one (stamping `_id` when absent); and
`MongoDatabase.update_data` issues a single `$set` upsert which
field-merges into a matched document or creates `{_id: id}` plus the
given fields on a miss. -/
theorem C6_amended_update_semantics (id_ : String) (data : Doc) (c : List Doc) :
    (findOne c id_ = none →
      local_update_data id_ data c
          = (dset data "_id" (.str id_), c ++ [dset data "_id" (.str id_)])
      ∧ old_update_data id_ data c
          = (data, c ++ [if dhas data "_id" then data else dset data "_id" (.str id_)])
      ∧ mongo_update_data id_ data c = c ++ [setFields [("_id", .str id_)] data])
    ∧ (∀ pre doc post, c = pre ++ doc :: post → (∀ d ∈ pre, hasId d id_ = false) →
        hasId doc id_ = true →
        local_update_data id_ data c = (data, pre ++ setFields doc data :: post)
        ∧ old_update_data id_ data c
            = (data, pre ++ (if dhas data "_id" then data
                else dset data "_id" (.str id_)) :: post)
        ∧ mongo_update_data id_ data c = pre ++ setFields doc data :: post) := by
  constructor
  · intro hfind
    have hnone : updateOneSet c id_ data = none :=
      (updateOneSet_eq_none_iff c id_ data).mpr hfind
    refine ⟨?_, ?_, ?_⟩
    · simp only [local_update_data, hnone]
    · simp only [old_update_data,
        replaceOneUpsert_all_miss c id_ data ((findOne_eq_none_iff c id_).mp hfind)]
    · simp only [mongo_update_data, hnone]
  · intro pre doc post hc hpre hdoc
    subst hc
    have hset := updateOneSet_decomp pre post doc id_ data hpre hdoc
    refine ⟨?_, ?_, ?_⟩
    · simp only [local_update_data, hset]
    · simp only [old_update_data, replaceOneUpsert_decomp pre post doc id_ data hpre hdoc]
    · simp only [mongo_update_data, hset]

/-- C6, witness: the amended theorem on an empty container (the miss
branch: insert/upsert) for id `"1"` and document `{ver: 1.0}`. -/
theorem C6_witness :
    local_update_data "1" [("ver", .num 1.0)] []
        = (dset [("ver", .num 1.0)] "_id" (.str "1"),
          [] ++ [dset [("ver", .num 1.0)] "_id" (.str "1")])
    ∧ old_update_data "1" [("ver", .num 1.0)] []
        = ([("ver", .num 1.0)],
          [] ++ [if dhas [("ver", .num 1.0)] "_id" then [("ver", .num 1.0)]
            else dset [("ver", .num 1.0)] "_id" (.str "1")])
    ∧ mongo_update_data "1" [("ver", .num 1.0)] []
        = [] ++ [setFields [("_id", .str "1")] [("ver", .num 1.0)]] :=
  (C6_amended_update_semantics "1" [("ver", .num 1.0)] []).1 rfl

/-- C2.  A version-stale hit migrates in one `get` call: the returned
document is the merge result with `ver` reset to the template's value,
it retains every scalar the stored document held at keys still scalar in
the template (apart from the reset `ver` itself), it contains every
non-sequence key of the template absent from the stored document, and
the very same merged document is handed to `update_data` for write-back,
the resulting container being the state the call returns.  Stated for
the Embedded-File (`LocalDatabase`) and Remote-Replicated
(`MongoDatabase`) backends cited by the claim. -/
theorem C2_migration_convergence (tmpl : Doc) (id_ : String) (c : List Doc) (data : Doc)
    (dv tv : Value) (m : Doc)
    (hfind : findOne c id_ = some data)
    (hdv : dget? data "ver" = some dv)
    (htv : dget? tmpl "ver" = some tv)
    (hlt : pyLt? dv tv = some true)
    (hm : update_values (.obj tmpl) data = some (.obj m))
    (hnd : (dkeys data).Nodup) :
    local_get_data tmpl id_ c
        = some (dset m "ver" tv, (local_update_data id_ (dset m "ver" tv) c).2)
    ∧ mongo_get_data tmpl id_ c
        = some (dset m "ver" tv, mongo_update_data id_ (dset m "ver" tv) c)
    ∧ dget? (dset m "ver" tv) "ver" = some tv
    ∧ (∀ k v w, k ≠ "ver" → dget? data k = some v → isScalar v = true →
        dget? tmpl k = some w → isScalar w = true →
        dget? (dset m "ver" tv) k = some v)
    ∧ (∀ k w, dget? tmpl k = some w → dhas data k = false → isSeq w = false →
        dhas (dset m "ver" tv) k = true) := by
  refine ⟨local_get_data_stale tmpl id_ c data dv tv m hfind hdv htv hlt hm,
    mongo_get_data_stale tmpl id_ c data dv tv m hfind hdv htv hlt hm,
    dget?_dset_self m "ver" tv, ?_, ?_⟩
  · intro k v w hk hv hs _ _
    rw [dget?_dset_ne m "ver" k tv hk]
    exact update_values_scalar_wins data tmpl m k v hnd hv hs hm
  · intro k w htk _ _
    by_cases hkv : k = "ver"
    · subst hkv
      unfold dhas
      rw [dget?_dset_self]
      rfl
    · have h1 : dhas tmpl k = true := by
        unfold dhas
        rw [htk]
        rfl
      exact dhas_dset_mono m "ver" k tv (update_values_dhas_mono data tmpl m k hm h1)

/-- C2, witness: the global-scope guild template (ver 1.2) against the
stored document `{_id: "1", ver: 1.0, prefix: "!!"}` — the stored scalar
`prefix` is retained and `ver` becomes 1.2. -/
theorem C2_witness :
    local_get_data global_db_models_guilds "1" [scenario_stored]
        = some (dset c2_merged "ver" (.num 1.2),
          (local_update_data "1" (dset c2_merged "ver" (.num 1.2)) [scenario_stored]).2)
    ∧ dget? (dset c2_merged "ver" (.num 1.2)) "ver" = some (.num 1.2)
    ∧ dget? (dset c2_merged "ver" (.num 1.2)) "prefix" = some (.str "!!") := by
  have h := C2_migration_convergence global_db_models_guilds "1" [scenario_stored]
    scenario_stored (.num 1.0) (.num 1.2) c2_merged rfl rfl rfl
    (by simp [pyLt?]; norm_num)
    (by simp [global_db_models_guilds, scenario_stored, c2_merged, update_values_str,
      update_values_num, update_values_bool, update_values_null, update_values_nil,
      dset, dget?])
    (by decide)
  exact ⟨h.1, h.2.2.1,
    h.2.2.2.1 "prefix" (.str "!!") (.str "") (by decide) rfl rfl rfl rfl⟩

/-- C3.  On the Remote-Replicated backend a `get` miss returns the bare
template and writes nothing: any number of consecutive `get` calls for a
never-stored id returns the template each time and leaves the container
unchanged (so the document still does not exist); the two embedded
backends instead seed and persist the `_id`-stamped default on the same
miss. -/
theorem C3_remote_miss_non_persisting (tmpl : Doc) (id_ : String) (c : List Doc)
    (hfind : findOne c id_ = none) :
    (∀ n, mongoGetN tmpl id_ n c = some (List.replicate n tmpl, c))
    ∧ local_get_data tmpl id_ c
        = some (dset tmpl "_id" (.str id_), c ++ [dset tmpl "_id" (.str id_)])
    ∧ old_get_data tmpl id_ c
        = some (dset tmpl "_id" (.str id_), c ++ [dset tmpl "_id" (.str id_)]) := by
  refine ⟨?_, local_get_data_miss tmpl id_ c hfind, old_get_data_miss tmpl id_ c hfind⟩
  intro n
  induction n with
  | zero => rfl
  | succ n ih =>
    simp only [mongoGetN, mongo_get_data_miss tmpl id_ c hfind, ih, List.replicate_succ]

/-- C3, witness: two remote `get` calls for id "7" on an empty container
return the template twice and leave the container empty; the embedded
variants seed it. -/
theorem C3_witness :
    (mongoGetN global_db_models_guilds "7" 2 []
        = some (List.replicate 2 global_db_models_guilds, []))
    ∧ local_get_data global_db_models_guilds "7" []
        = some (dset global_db_models_guilds "_id" (.str "7"),
          [] ++ [dset global_db_models_guilds "_id" (.str "7")])
    ∧ old_get_data global_db_models_guilds "7" []
        = some (dset global_db_models_guilds "_id" (.str "7"),
          [] ++ [dset global_db_models_guilds "_id" (.str "7")]) := by
  have h := C3_remote_miss_non_persisting global_db_models_guilds "7" [] rfl
  exact ⟨h.1 2, h.2.1, h.2.2⟩

/-- C7.  On the embedded backends, a `get` for a never-seen id seeds the
registry default, stamps `_id` with the stringified id, persists it by
insert, and returns it; a second `get` for the same id is a pure hit
that returns the identical document and leaves the container unchanged. -/
theorem C7_miss_seeds_once (tmpl : Doc) (id_ : String) (c : List Doc) (q : Rat)
    (hfind : findOne c id_ = none) (htv : dget? tmpl "ver" = some (.num q)) :
    local_get_data tmpl id_ c
        = some (dset tmpl "_id" (.str id_), c ++ [dset tmpl "_id" (.str id_)])
    ∧ local_get_data tmpl id_ (c ++ [dset tmpl "_id" (.str id_)])
        = some (dset tmpl "_id" (.str id_), c ++ [dset tmpl "_id" (.str id_)])
    ∧ old_get_data tmpl id_ c
        = some (dset tmpl "_id" (.str id_), c ++ [dset tmpl "_id" (.str id_)])
    ∧ old_get_data tmpl id_ (c ++ [dset tmpl "_id" (.str id_)])
        = some (dset tmpl "_id" (.str id_), c ++ [dset tmpl "_id" (.str id_)]) := by
  have hfind2 : findOne (c ++ [dset tmpl "_id" (.str id_)]) id_
      = some (dset tmpl "_id" (.str id_)) := by
    rw [findOne_append_left_none c [dset tmpl "_id" (.str id_)] id_ hfind]
    exact findOne_cons_hit (dset tmpl "_id" (.str id_)) [] id_ (hasId_dset_id tmpl id_)
  have hdv2 : dget? (dset tmpl "_id" (.str id_)) "ver" = some (.num q) := by
    rw [dget?_dset_ne tmpl "_id" "ver" (.str id_) (by decide)]
    exact htv
  have hlt2 : pyLt? (.num q) (.num q) = some false := by simp [pyLt?]
  exact ⟨local_get_data_miss tmpl id_ c hfind,
    local_get_data_fresh tmpl id_ (c ++ [dset tmpl "_id" (.str id_)])
      (dset tmpl "_id" (.str id_)) (.num q) (.num q) hfind2 hdv2 htv hlt2,
    old_get_data_miss tmpl id_ c hfind,
    old_get_data_fresh tmpl id_ (c ++ [dset tmpl "_id" (.str id_)])
      (dset tmpl "_id" (.str id_)) (.num q) (.num q) hfind2 hdv2 htv hlt2⟩

/-- C7, witness: seeding the per-deployment user template for id "5" on
an empty container; the second call is a pure hit. -/
theorem C7_witness :
    local_get_data db_models_users "5" []
        = some (dset db_models_users "_id" (.str "5"),
          [] ++ [dset db_models_users "_id" (.str "5")])
    ∧ local_get_data db_models_users "5" ([] ++ [dset db_models_users "_id" (.str "5")])
        = some (dset db_models_users "_id" (.str "5"),
          [] ++ [dset db_models_users "_id" (.str "5")]) := by
  have h := C7_miss_seeds_once db_models_users "5" [] 1.0 rfl rfl
  exact ⟨h.1, h.2.1⟩

/-- C10.  On a miss the Remote-Replicated backend returns the template
itself, which carries no `_id` at all (the `_id` stamp is applied only on
the embedded backends' seed path), so its `get` can return a document
without the `_id` string key the wire shape documents; both embedded
backends return the seeded document with `_id` equal to the stringified
id. -/
theorem C10_remote_miss_lacks_id (tmpl : Doc) (id_ : String) (c : List Doc)
    (hfind : findOne c id_ = none) (hnid : dhas tmpl "_id" = false) :
    (mongo_get_data tmpl id_ c).map (fun p => dhas p.1 "_id") = some false
    ∧ mongo_get_data tmpl id_ c = some (tmpl, c)
    ∧ (local_get_data tmpl id_ c).map (fun p => dget? p.1 "_id")
        = some (some (.str id_))
    ∧ (old_get_data tmpl id_ c).map (fun p => dget? p.1 "_id")
        = some (some (.str id_)) := by
  refine ⟨?_, mongo_get_data_miss tmpl id_ c hfind, ?_, ?_⟩
  · rw [mongo_get_data_miss tmpl id_ c hfind]
    simp [hnid]
  · rw [local_get_data_miss tmpl id_ c hfind]
    simp [dget?_dset_self]
  · rw [old_get_data_miss tmpl id_ c hfind]
    simp [dget?_dset_self]

/-- C10, witness: a remote miss for id "9" on the guild template returns
a document without `_id`; the embedded misses return `_id = "9"`. -/
theorem C10_witness :
    (mongo_get_data db_models_guilds "9" []).map (fun p => dhas p.1 "_id") = some false
    ∧ (local_get_data db_models_guilds "9" []).map (fun p => dget? p.1 "_id")
        = some (some (.str "9")) := by
  have h := C10_remote_miss_lacks_id db_models_guilds "9" [] rfl rfl
  exact ⟨h.1, h.2.2.1⟩

/-! ## Claim C8: the bulk import gate -/

/-- A dump file for collection `guilds_backup` with two guild entries. -/
def c8_file1 : ImportFile :=
  ⟨"guilds_backup", [("guilds", [("1", [("ver", .num 1.7)]), ("2", [("ver", .num 1.7)])])]⟩

/-- A dump file for collection `users_backup` with one user entry. -/
def c8_file2 : ImportFile :=
  ⟨"users_backup", [("users", [("3", [("ver", .num 1.0)])])]⟩

/-- C8, counterexample.  The claim says an error while upserting a single
dump entry is caught, logged and skipped, never aborting the run.  In the
code only the `shutil.move` call sits inside a `try/except`; an exception
from the per-entry `update_data` call propagates.  With a driver failure
on the very first entry, the whole run aborts with that error — the
second entry of the file and the entire second file are never
processed. -/
theorem C8_counterexample :
    update_from_json (fun _ _ i => i == "1") (fun _ => false) [c8_file1, c8_file2] [] []
      = .error ("guilds_backup", "guilds", "1") := rfl

/-- Entry upserts that never fail make `import_ids` succeed. -/
theorem import_ids_ok (updFails : String → String → String → Bool) (col db : String)
    (hfail : ∀ a b i, updFails a b i = false) :
    ∀ (entries : List (String × Doc)) (s : MState),
      ∃ s1, import_ids updFails col db entries s = .ok s1 := by
  intro entries
  induction entries with
  | nil => intro s; exact ⟨s, rfl⟩
  | cons e rest ih =>
    intro s
    obtain ⟨id0, doc0⟩ := e
    simp only [import_ids, hfail col db id0, Bool.false_eq_true, if_false]
    exact ih _

/-- With no entry failures, `import_dbs` succeeds whatever the move
oracle answers. -/
theorem import_dbs_ok (updFails : String → String → String → Bool)
    (moveFails : String → Bool) (col : String)
    (hfail : ∀ a b i, updFails a b i = false) :
    ∀ (dbs : List (String × List (String × Doc))) (s : MState) (moved : List String),
      ∃ out, import_dbs updFails moveFails col dbs s moved = .ok out := by
  intro dbs
  induction dbs with
  | nil => intro s moved; exact ⟨(s, moved), rfl⟩
  | cons hd rest ih =>
    intro s moved
    obtain ⟨db, entries⟩ := hd
    simp only [import_dbs]
    by_cases he : entries.isEmpty = true
    · rw [if_pos he]
      exact ih s moved
    · rw [if_neg he]
      obtain ⟨s1, hs1⟩ := import_ids_ok updFails col db hfail entries s
      rw [hs1]
      exact ih s1 _

/-- C8, amended.  Only the archive-move failure is caught and downgraded
to logging: when no per-entry upsert fails, the import run succeeds for
every move-failure pattern (a failed move merely leaves the file out of
the moved list); an error upserting an entry is not caught — it
propagates and aborts the whole run (see the counterexample). -/
theorem C8_amended_only_move_failures_swallowed
    (updFails : String → String → String → Bool) (moveFails : String → Bool)
    (files : List ImportFile) (s : MState) (moved : List String)
    (hfail : ∀ a b i, updFails a b i = false) :
    (update_from_json updFails moveFails files s moved).isOk = true := by
  induction files generalizing s moved with
  | nil => rfl
  | cons file rest ih =>
    simp only [update_from_json]
    obtain ⟨out, hout⟩ := import_dbs_ok updFails moveFails file.stem hfail file.data s moved
    rw [hout]
    exact ih out.1 out.2

/-- C8, witness: the amended theorem with every move failing and no
entry failing — the run still succeeds. -/
theorem C8_witness :
    (update_from_json (fun _ _ _ => false) (fun _ => true) [c8_file1, c8_file2] [] []).isOk
      = true :=
  C8_amended_only_move_failures_swallowed (fun _ _ _ => false) (fun _ => true)
    [c8_file1, c8_file2] [] [] (fun _ _ _ => rfl)

/-! ## Claim C9: the storage invariant -/

theorem hasId_true_iff (doc : Doc) (id_ : String) :
    hasId doc id_ = true ↔ dget? doc "_id" = some (.str id_) := by
  unfold hasId
  rcases h : dget? doc "_id" with _ | v
  · simp
  · cases v with
    | str s => simp
    | num q => simp
    | bool b => simp
    | null => simp
    | arr xs => simp
    | obj m => simp

theorem idOf_dget (doc : Doc) (s : String) :
    idOf doc = some s ↔ dget? doc "_id" = some (.str s) := by
  unfold idOf
  rcases h : dget? doc "_id" with _ | v
  · simp
  · cases v with
    | str s2 => simp
    | num q => simp
    | bool b => simp
    | null => simp
    | arr xs => simp
    | obj m => simp

/-- Appending a fresh well-formed document preserves the invariant. -/
theorem stateOk_append_seed (tv : Rat) (c : List Doc) (newdoc : Doc) (id_ : String)
    (hinv : stateOk tv c) (hfind : findOne c id_ = none)
    (hdoc : docOk tv newdoc) (hid : dget? newdoc "_id" = some (.str id_)) :
    stateOk tv (c ++ [newdoc]) := by
  obtain ⟨hdocs, hids⟩ := hinv
  constructor
  · intro doc hmem
    rcases List.mem_append.mp hmem with h | h
    · exact hdocs doc h
    · rw [List.mem_singleton.mp h]
      exact hdoc
  · rw [List.map_append]
    refine List.nodup_append.mpr ⟨hids, by simp, ?_⟩
    intro a ha hb
    simp only [List.map_cons, List.map_nil, List.mem_singleton] at hb
    subst hb
    have hida : idOf newdoc = some id_ := (idOf_dget newdoc id_).mpr hid
    rw [hida] at ha
    obtain ⟨d, hdmem, hdid⟩ := List.mem_map.mp ha
    have : hasId d id_ = true :=
      (hasId_true_iff d id_).mpr ((idOf_dget d id_).mp hdid)
    rw [(findOne_eq_none_iff c id_).mp hfind d hdmem] at this
    cases this

/-- Replacing a document in place by one with the same `_id` preserves
the invariant. -/
theorem stateOk_replace (tv : Rat) (pre post : List Doc) (doc newdoc : Doc)
    (hinv : stateOk tv (pre ++ doc :: post)) (hdoc : docOk tv newdoc)
    (hid : idOf newdoc = idOf doc) :
    stateOk tv (pre ++ newdoc :: post) := by
  obtain ⟨hdocs, hids⟩ := hinv
  constructor
  · intro d hmem
    rcases List.mem_append.mp hmem with h | h
    · exact hdocs d (List.mem_append.mpr (.inl h))
    · rcases List.mem_cons.mp h with h | h
      · rw [h]
        exact hdoc
      · exact hdocs d (List.mem_append.mpr (.inr (List.mem_cons_of_mem doc h)))
  · rw [List.map_append, List.map_cons] at hids ⊢
    rw [hid]
    exact hids

/-- Deleting documents preserves the invariant. -/
theorem stateOk_sublist (tv : Rat) (c c2 : List Doc)
    (hinv : stateOk tv c) (hsub : c2.Sublist c) : stateOk tv c2 :=
  ⟨fun d hd => hinv.1 d (hsub.subset hd), hinv.2.sublist (hsub.map idOf)⟩

/-- The seeded default document is well formed. -/
theorem docOk_seed (tv : Rat) (tmpl : Doc) (id_ : String)
    (htv : dget? tmpl "ver" = some (.num tv)) (hwf : (dkeys tmpl).Nodup) :
    docOk tv (dset tmpl "_id" (.str id_)) :=
  ⟨wf_dset tmpl "_id" _ hwf,
   ⟨tv, by rw [dget?_dset_ne tmpl "_id" "ver" _ (by decide)]; exact htv, le_refl tv⟩,
   ⟨id_, dget?_dset_self tmpl "_id" _⟩⟩

/-- A `$set` with a well-versioned document onto a matched stored
document yields a well-formed document with the same `_id`. -/
theorem docOk_update (tv : Rat) (doc data : Doc) (id_ : String)
    (hdoc : docOk tv doc) (hmatch : hasId doc id_ = true)
    (hnd : (dkeys data).Nodup)
    (hver : ∃ q, dget? data "ver" = some (.num q) ∧ q ≤ tv)
    (hid : dget? data "_id" = none ∨ dget? data "_id" = some (.str id_)) :
    docOk tv (setFields doc data) ∧ idOf (setFields doc data) = idOf doc := by
  obtain ⟨hwf, _, _⟩ := hdoc
  obtain ⟨q, hq, hqle⟩ := hver
  have hidoc : dget? doc "_id" = some (.str id_) := (hasId_true_iff doc id_).mp hmatch
  have hnewid : dget? (setFields doc data) "_id" = some (.str id_) := by
    rcases hid with h | h
    · rw [dget?_setFields_not_mem data doc "_id" ((dget?_eq_none_iff data "_id").mp h)]
      exact hidoc
    · exact dget?_setFields_of_get data doc "_id" _ hnd h
  refine ⟨⟨wf_setFields data doc hwf,
    ⟨q, dget?_setFields_of_get data doc "ver" _ hnd hq, hqle⟩, ⟨id_, hnewid⟩⟩, ?_⟩
  unfold idOf
  rw [hnewid, hidoc]

/-- The migrated document written back on a stale hit is well formed and
keeps the stored document's `_id`. -/
theorem docOk_migrated (tv : Rat) (tmpl data m : Doc) (id_ : String)
    (hwfT : (dkeys tmpl).Nodup) (hndD : (dkeys data).Nodup)
    (hmatch : hasId data id_ = true)
    (hm : update_values (.obj tmpl) data = some (.obj m)) :
    docOk tv (dset m "ver" (.num tv))
    ∧ dget? (dset m "ver" (.num tv)) "_id" = some (.str id_) := by
  have hmid : dget? m "_id" = some (.str id_) :=
    update_values_scalar_wins data tmpl m "_id" (.str id_) hndD
      ((hasId_true_iff data id_).mp hmatch) rfl hm
  have hrid : dget? (dset m "ver" (.num tv)) "_id" = some (.str id_) := by
    rw [dget?_dset_ne m "ver" "_id" _ (by decide)]
    exact hmid
  exact ⟨⟨wf_dset m "ver" _ (update_values_wf data tmpl m hwfT hm),
    ⟨tv, dget?_dset_self m "ver" _, le_refl tv⟩, ⟨id_, hrid⟩⟩, hrid⟩

/-- C9, counterexample.  The claim says every operation preserves the
invariant (each stored document carries a numeric `ver ≤` template
version and a string `_id`).  `update_data` takes the caller's document
as is: updating an empty container with `{a: 0}` inserts a document with
no `ver` field at all, breaking the invariant from an invariant-satisfying
state. -/
theorem C9_counterexample :
    stateOk 1.7 []
    ∧ (local_update_data "1" [("a", .num 0)] []).2 = [[("a", .num 0), ("_id", .str "1")]]
    ∧ ¬ stateOk 1.7 [[("a", .num 0), ("_id", .str "1")]] := by
  refine ⟨⟨fun d hd => absurd hd (List.not_mem_nil d), List.nodup_nil⟩, rfl, ?_⟩
  intro h
  obtain ⟨q, hq, _⟩ := (h.1 [("a", .num 0), ("_id", .str "1")]
    (List.mem_cons_self _ _)).2.1
  rw [dget?_cons_ne "a" "ver" (.num 0) _ (by decide),
    dget?_cons_ne "_id" "ver" (.str "1") _ (by decide), dget?_nil] at hq
  cases hq

/-- C9, amended.  The invariant — every stored document has unique keys,
a numeric `ver` at most the template's version, and a string `_id`,
pairwise distinct within the container — is preserved by every backend
operation, with `update_data` restricted to calls whose document itself
carries a numeric `ver ≤` the template version, unique keys, and no
`_id` differing from the addressed id (`get_data`, `delete_data` and the
read-only `query_data` need no side condition). -/
theorem C9_amended_invariant_preservation (tv : Rat) (tmpl : Doc) (c c1 : List Doc)
    (htv : dget? tmpl "ver" = some (.num tv)) (hwf : (dkeys tmpl).Nodup)
    (hinv : stateOk tv c) (hstep : Step tv tmpl c c1) : stateOk tv c1 := by
  cases hstep with
  | localGet id_ c r c1 hget =>
    rcases hf : findOne c id_ with _ | data
    · rw [local_get_data_miss tmpl id_ c hf] at hget
      have h2 : c ++ [dset tmpl "_id" (.str id_)] = c1 :=
        congrArg Prod.snd (Option.some.inj hget)
      subst h2
      exact stateOk_append_seed tv c _ id_ hinv hf (docOk_seed tv tmpl id_ htv hwf)
        (dget?_dset_self tmpl "_id" _)
    · rcases hdv : dget? data "ver" with _ | dv
      · simp [local_get_data, hf, hdv] at hget
      · rcases hb : pyLt? dv (.num tv) with _ | b
        · simp [local_get_data, hf, hdv, htv, hb] at hget
        · cases b with
          | false =>
            rw [local_get_data_fresh tmpl id_ c data dv (.num tv) hf hdv htv hb] at hget
            have h2 : c = c1 := congrArg Prod.snd (Option.some.inj hget)
            rw [← h2]
            exact hinv
          | true =>
            rcases hmv : update_values (.obj tmpl) data with _ | mv
            · simp [local_get_data, hf, hdv, htv, hb, hmv] at hget
            · obtain ⟨m, rfl⟩ := update_values_obj_shape data tmpl mv hmv
              rw [local_get_data_stale tmpl id_ c data dv (.num tv) m hf hdv htv hb hmv]
                at hget
              have h2 : (local_update_data id_ (dset m "ver" (.num tv)) c).2 = c1 :=
                congrArg Prod.snd (Option.some.inj hget)
              subst h2
              obtain ⟨pre, post, rfl, hpre, hmat⟩ := findOne_eq_some c id_ data hf
              have hdata : docOk tv data :=
                hinv.1 data (List.mem_append.mpr (.inr (List.mem_cons_self data post)))
              obtain ⟨hdm, hrid⟩ := docOk_migrated tv tmpl data m id_ hwf hdata.1 hmat hmv
              have hset := updateOneSet_decomp pre post data id_
                (dset m "ver" (.num tv)) hpre hmat
              have hc1 : (local_update_data id_ (dset m "ver" (.num tv))
                  (pre ++ data :: post)).2
                  = pre ++ setFields data (dset m "ver" (.num tv)) :: post := by
                simp only [local_update_data, hset]
              rw [hc1]
              have hupd := docOk_update tv data (dset m "ver" (.num tv)) id_ hdata hmat
                hdm.1 ⟨tv, dget?_dset_self m "ver" _, le_refl tv⟩ (Or.inr hrid)
              exact stateOk_replace tv pre post data _ hinv hupd.1 hupd.2
  | oldGet id_ c r c1 hget =>
    rcases hf : findOne c id_ with _ | data
    · rw [old_get_data_miss tmpl id_ c hf] at hget
      have h2 : c ++ [dset tmpl "_id" (.str id_)] = c1 :=
        congrArg Prod.snd (Option.some.inj hget)
      subst h2
      exact stateOk_append_seed tv c _ id_ hinv hf (docOk_seed tv tmpl id_ htv hwf)
        (dget?_dset_self tmpl "_id" _)
    · rcases hdv : dget? data "ver" with _ | dv
      · simp [old_get_data, hf, hdv] at hget
      · rcases hb : pyLt? dv (.num tv) with _ | b
        · simp [old_get_data, hf, hdv, htv, hb] at hget
        · cases b with
          | false =>
            rw [old_get_data_fresh tmpl id_ c data dv (.num tv) hf hdv htv hb] at hget
            have h2 : c = c1 := congrArg Prod.snd (Option.some.inj hget)
            rw [← h2]
            exact hinv
          | true =>
            rcases hmv : update_values (.obj tmpl) data with _ | mv
            · simp [old_get_data, hf, hdv, htv, hb, hmv] at hget
            · obtain ⟨m, rfl⟩ := update_values_obj_shape data tmpl mv hmv
              rw [old_get_data_stale tmpl id_ c data dv (.num tv) m hf hdv htv hb hmv]
                at hget
              have h2 : (old_update_data id_ (dset m "ver" (.num tv)) c).2 = c1 :=
                congrArg Prod.snd (Option.some.inj hget)
              subst h2
              obtain ⟨pre, post, rfl, hpre, hmat⟩ := findOne_eq_some c id_ data hf
              have hdata : docOk tv data :=
                hinv.1 data (List.mem_append.mpr (.inr (List.mem_cons_self data post)))
              obtain ⟨hdm, hrid⟩ := docOk_migrated tv tmpl data m id_ hwf hdata.1 hmat hmv
              have hdhas : dhas (dset m "ver" (.num tv)) "_id" = true := by
                unfold dhas
                rw [hrid]
                rfl
              rw [show (old_update_data id_ (dset m "ver" (.num tv))
                  (pre ++ data :: post)).2
                  = replaceOneUpsert (pre ++ data :: post) id_
                    (dset m "ver" (.num tv)) from rfl,
                replaceOneUpsert_decomp pre post data id_ _ hpre hmat, if_pos hdhas]
              have hidEq : idOf (dset m "ver" (.num tv)) = idOf data := by
                rw [(idOf_dget _ id_).mpr hrid,
                  (idOf_dget data id_).mpr ((hasId_true_iff data id_).mp hmat)]
              exact stateOk_replace tv pre post data _ hinv hdm hidEq
  | mongoGet id_ c r c1 hget =>
    rcases hf : findOne c id_ with _ | data
    · rw [mongo_get_data_miss tmpl id_ c hf] at hget
      have h2 : c = c1 := congrArg Prod.snd (Option.some.inj hget)
      rw [← h2]
      exact hinv
    · rcases hdv : dget? data "ver" with _ | dv
      · simp [mongo_get_data, hf, hdv] at hget
      · rcases hb : pyLt? dv (.num tv) with _ | b
        · simp [mongo_get_data, hf, hdv, htv, hb] at hget
        · cases b with
          | false =>
            rw [mongo_get_data_fresh tmpl id_ c data dv (.num tv) hf hdv htv hb] at hget
            have h2 : c = c1 := congrArg Prod.snd (Option.some.inj hget)
            rw [← h2]
            exact hinv
          | true =>
            rcases hmv : update_values (.obj tmpl) data with _ | mv
            · simp [mongo_get_data, hf, hdv, htv, hb, hmv] at hget
            · obtain ⟨m, rfl⟩ := update_values_obj_shape data tmpl mv hmv
              rw [mongo_get_data_stale tmpl id_ c data dv (.num tv) m hf hdv htv hb hmv]
                at hget
              have h2 : mongo_update_data id_ (dset m "ver" (.num tv)) c = c1 :=
                congrArg Prod.snd (Option.some.inj hget)
              subst h2
              obtain ⟨pre, post, rfl, hpre, hmat⟩ := findOne_eq_some c id_ data hf
              have hdata : docOk tv data :=
                hinv.1 data (List.mem_append.mpr (.inr (List.mem_cons_self data post)))
              obtain ⟨hdm, hrid⟩ := docOk_migrated tv tmpl data m id_ hwf hdata.1 hmat hmv
              have hset := updateOneSet_decomp pre post data id_
                (dset m "ver" (.num tv)) hpre hmat
              have hc1 : mongo_update_data id_ (dset m "ver" (.num tv))
                  (pre ++ data :: post)
                  = pre ++ setFields data (dset m "ver" (.num tv)) :: post := by
                simp only [mongo_update_data, hset]
              rw [hc1]
              have hupd := docOk_update tv data (dset m "ver" (.num tv)) id_ hdata hmat
                hdm.1 ⟨tv, dget?_dset_self m "ver" _, le_refl tv⟩ (Or.inr hrid)
              exact stateOk_replace tv pre post data _ hinv hupd.1 hupd.2
  | localUpd id_ data c hnd hver hid =>
    rcases hf : findOne c id_ with _ | doc
    · have hnone := (updateOneSet_eq_none_iff c id_ data).mpr hf
      have hc1 : (local_update_data id_ data c).2 = c ++ [dset data "_id" (.str id_)] := by
        simp only [local_update_data, hnone]
      rw [hc1]
      obtain ⟨q, hq, hqle⟩ := hver
      refine stateOk_append_seed tv c _ id_ hinv hf
        ⟨wf_dset data "_id" _ hnd, ⟨q, ?_, hqle⟩, ⟨id_, dget?_dset_self data "_id" _⟩⟩
        (dget?_dset_self data "_id" _)
      rw [dget?_dset_ne data "_id" "ver" _ (by decide)]
      exact hq
    · obtain ⟨pre, post, rfl, hpre, hmat⟩ := findOne_eq_some c id_ doc hf
      have hset := updateOneSet_decomp pre post doc id_ data hpre hmat
      have hc1 : (local_update_data id_ data (pre ++ doc :: post)).2
          = pre ++ setFields doc data :: post := by
        simp only [local_update_data, hset]
      rw [hc1]
      have hdoc : docOk tv doc :=
        hinv.1 doc (List.mem_append.mpr (.inr (List.mem_cons_self doc post)))
      have hupd := docOk_update tv doc data id_ hdoc hmat hnd hver hid
      exact stateOk_replace tv pre post doc _ hinv hupd.1 hupd.2
  | oldUpd id_ data c hnd hver hid =>
    rcases hf : findOne c id_ with _ | doc
    · have hall := (findOne_eq_none_iff c id_).mp hf
      rw [show (old_update_data id_ data c).2 = replaceOneUpsert c id_ data from rfl,
        replaceOneUpsert_all_miss c id_ data hall]
      obtain ⟨q, hq, hqle⟩ := hver
      rcases hid with h | h
      · have hdf : dhas data "_id" = false := by
          unfold dhas
          rw [h]
          rfl
        rw [if_neg (by simp [hdf])]
        refine stateOk_append_seed tv c _ id_ hinv hf
          ⟨wf_dset data "_id" _ hnd, ⟨q, ?_, hqle⟩, ⟨id_, dget?_dset_self data "_id" _⟩⟩
          (dget?_dset_self data "_id" _)
        rw [dget?_dset_ne data "_id" "ver" _ (by decide)]
        exact hq
      · have hdt : dhas data "_id" = true := by
          unfold dhas
          rw [h]
          rfl
        rw [if_pos hdt]
        exact stateOk_append_seed tv c data id_ hinv hf ⟨hnd, ⟨q, hq, hqle⟩, ⟨id_, h⟩⟩ h
    · obtain ⟨pre, post, rfl, hpre, hmat⟩ := findOne_eq_some c id_ doc hf
      rw [show (old_update_data id_ data (pre ++ doc :: post)).2
          = replaceOneUpsert (pre ++ doc :: post) id_ data from rfl,
        replaceOneUpsert_decomp pre post doc id_ data hpre hmat]
      have hidoc : idOf doc = some id_ :=
        (idOf_dget doc id_).mpr ((hasId_true_iff doc id_).mp hmat)
      obtain ⟨q, hq, hqle⟩ := hver
      rcases hid with h | h
      · have hdf : dhas data "_id" = false := by
          unfold dhas
          rw [h]
          rfl
        rw [if_neg (by simp [hdf])]
        refine stateOk_replace tv pre post doc _ hinv
          ⟨wf_dset data "_id" _ hnd, ⟨q, ?_, hqle⟩, ⟨id_, dget?_dset_self data "_id" _⟩⟩ ?_
        · rw [dget?_dset_ne data "_id" "ver" _ (by decide)]
          exact hq
        · rw [(idOf_dget _ id_).mpr (dget?_dset_self data "_id" _), hidoc]
      · have hdt : dhas data "_id" = true := by
          unfold dhas
          rw [h]
          rfl
        rw [if_pos hdt]
        refine stateOk_replace tv pre post doc data hinv ⟨hnd, ⟨q, hq, hqle⟩, ⟨id_, h⟩⟩ ?_
        rw [(idOf_dget data id_).mpr h, hidoc]
  | mongoUpd id_ data c hnd hver hid =>
    rcases hf : findOne c id_ with _ | doc
    · have hnone := (updateOneSet_eq_none_iff c id_ data).mpr hf
      have hc1 : mongo_update_data id_ data c
          = c ++ [setFields [("_id", .str id_)] data] := by
        simp only [mongo_update_data, hnone]
      rw [hc1]
      obtain ⟨q, hq, hqle⟩ := hver
      have hnid : dget? (setFields [("_id", .str id_)] data) "_id" = some (.str id_) := by
        rcases hid with h | h
        · rw [dget?_setFields_not_mem data _ "_id" ((dget?_eq_none_iff data "_id").mp h)]
          exact dget?_cons_eq "_id" "_id" _ [] rfl
        · exact dget?_setFields_of_get data _ "_id" _ hnd h
      refine stateOk_append_seed tv c _ id_ hinv hf
        ⟨wf_setFields data [("_id", .str id_)] (by simp [dkeys]),
          ⟨q, dget?_setFields_of_get data _ "ver" _ hnd hq, hqle⟩, ⟨id_, hnid⟩⟩ hnid
    · obtain ⟨pre, post, rfl, hpre, hmat⟩ := findOne_eq_some c id_ doc hf
      have hset := updateOneSet_decomp pre post doc id_ data hpre hmat
      have hc1 : mongo_update_data id_ data (pre ++ doc :: post)
          = pre ++ setFields doc data :: post := by
        simp only [mongo_update_data, hset]
      rw [hc1]
      have hdoc : docOk tv doc :=
        hinv.1 doc (List.mem_append.mpr (.inr (List.mem_cons_self doc post)))
      have hupd := docOk_update tv doc data id_ hdoc hmat hnd hver hid
      exact stateOk_replace tv pre post doc _ hinv hupd.1 hupd.2
  | del id_ c =>
    exact stateOk_sublist tv c _ hinv (deleteOne_sublist c id_)
  | queryRead c =>
    exact hinv

/-- C9, witness: the amended theorem on an `update_data` call writing a
well-versioned document into an empty container. -/
theorem C9_witness :
    stateOk 1.7 (local_update_data "1" [("ver", .num 1.0)] []).2 :=
  C9_amended_invariant_preservation 1.7 db_models_guilds []
    (local_update_data "1" [("ver", .num 1.0)] []).2 rfl (by decide)
    ⟨fun d hd => absurd hd (List.not_mem_nil d), List.nodup_nil⟩
    (Step.localUpd "1" [("ver", .num 1.0)] [] (by decide)
      ⟨1.0, rfl, by norm_num⟩ (Or.inl rfl))

end Db
